import Mathlib

/-!
Verification of the order-matching core of the stock-market API: a shallow
embedding of `app/services/balance_service.py`, `app/services/matching_engine.py`
and `app/services/order_service.py` (together with the relevant HTTP routers),
with theorems settling the specification's claims about them.

Python integers are unbounded, so quantities are modelled as `Int`; the balance
table is an association list keyed by `(user_id, ticker)`; a SQL `UPDATE`
touching the row(s) of one key is a `List.map`; an `INSERT` appends.  The
matching engine's `while` loop is made structurally recursive with a fuel
argument that dominates the remaining quantity of the taker order.
-/

namespace StockMarket

/-- Order direction, mirroring `app.schemas.order.Direction`. -/
inductive Direction where
  | BUY
  | SELL
deriving DecidableEq

/-- Order lifecycle status, mirroring `app.schemas.order.OrderStatus`. -/
inductive OrderStatus where
  | NEW
  | PARTIALLY_EXECUTED
  | EXECUTED
  | CANCELLED
deriving DecidableEq

/-- One row of the `balances` table: held amount and locked amount. -/
structure BalanceRec where
  amount : Int
  locked : Int
deriving DecidableEq

/-- One row of the `orders` table (uuid columns modelled as `Nat`). -/
structure Order where
  id : Nat
  userId : Nat
  ticker : String
  direction : Direction
  qty : Int
  price : Option Int
  status : OrderStatus
  filledQty : Int
  timestamp : Nat
deriving DecidableEq

/-- One row of the `transactions` table (the trade tape). -/
structure Trade where
  ticker : String
  amount : Int
  price : Int
  buyOrderId : Nat
  sellOrderId : Nat
  buyerUserId : Nat
  sellerUserId : Nat
deriving DecidableEq

/-- The relational store visible to the services: instruments, balances,
orders and trades. -/
structure State where
  instruments : List String
  balances : List ((Nat × String) × BalanceRec)
  orders : List Order
  trades : List Trade
deriving DecidableEq

/-! ### Balance table primitives -/

/-- SQL `SELECT ... FROM balances WHERE user_id = k.1 AND ticker = k.2` (first row). -/
def balFind (l : List ((Nat × String) × BalanceRec)) (k : Nat × String) :
    Option BalanceRec :=
  (l.find? (fun e => decide (e.1 = k))).map (·.2)

/-- SQL `UPDATE balances SET ... WHERE user_id = k.1 AND ticker = k.2`: every row of
the key is rewritten by `f`. -/
def balSet (l : List ((Nat × String) × BalanceRec)) (k : Nat × String)
    (f : BalanceRec → BalanceRec) : List ((Nat × String) × BalanceRec) :=
  l.map (fun e => if e.1 = k then (e.1, f e.2) else e)

/-- Row lookup on the state. -/
def findBal (s : State) (u : Nat) (t : String) : Option BalanceRec :=
  balFind s.balances (u, t)

/-- Row update on the state. -/
def setBal (s : State) (u : Nat) (t : String) (f : BalanceRec → BalanceRec) : State :=
  { s with balances := balSet s.balances (u, t) f }

/-- SQL `INSERT INTO balances VALUES (u, t, b.amount, b.locked)`. -/
def insertBal (s : State) (u : Nat) (t : String) (b : BalanceRec) : State :=
  { s with balances := s.balances ++ [((u, t), b)] }

/-- The operation `BalanceService.get_balance`: the row, or zeros when absent. -/
def getBalance (s : State) (u : Nat) (t : String) : BalanceRec :=
  (findBal s u t).getD ⟨0, 0⟩

/-- Available funds of a user in a ticker: `amount - locked_amount`. -/
def availableOf (s : State) (u : Nat) (t : String) : Int :=
  (getBalance s u t).amount - (getBalance s u t).locked

/-! ### BalanceService operations -/

/-- The operation `BalanceService.get_all_balances`: all rows of the user whose available
amount is positive, as `(ticker, available)` pairs. -/
def getAllBalances (s : State) (u : Nat) : List (String × Int) :=
  (s.balances.filter (fun e => decide (e.1.1 = u))).filterMap
    (fun e =>
      let available := e.2.amount - e.2.locked
      if 0 < available then some (e.1.2, available) else none)

/-- The operation `BalanceService.admin_deposit`: increment the existing row's amount by the
value computed from the fetched row, or create the row. -/
def adminDeposit (s : State) (u : Nat) (t : String) (amt : Int) : State :=
  match findBal s u t with
  | some b => setBal s u t (fun r => { r with amount := b.amount + amt })
  | none => insertBal s u t ⟨amt, 0⟩

/-- The operation `BalanceService._block_funds_atomic`: reserve `amt`, creating a zero row
(and still failing) when the record is missing; the negative-locked "fix"
branch and the stale-row arithmetic of the source are reproduced as written. -/
def blockFundsAtomic (s : State) (u : Nat) (t : String) (amt : Int) : State × Bool :=
  match findBal s u t with
  | none => (insertBal s u t ⟨0, 0⟩, false)
  | some b =>
    let s1 := if b.locked < 0 then setBal s u t (fun r => { r with locked := 0 }) else s
    let available := if b.locked < 0 then b.amount else b.amount - b.locked
    if available < amt then (s1, false)
    else
      let newLocked := b.locked + amt
      let newAvailable := b.amount - newLocked
      if newAvailable < 0 then (s1, false)
      else (setBal s1 u t (fun _ => { b with locked := newLocked }), true)

/-- The operation `BalanceService._unblock_funds_atomic`: release `amt`, clamping the locked
amount at zero; a missing record is a logged no-op. -/
def unblockFundsAtomic (s : State) (u : Nat) (t : String) (amt : Int) : State :=
  match findBal s u t with
  | none => s
  | some b => setBal s u t (fun _ => { b with locked := max 0 (b.locked - amt) })

/-- The operation `BalanceService._create_balance_if_not_exists`. -/
def createBalanceIfNotExists (s : State) (u : Nat) (t : String) : State :=
  match findBal s u t with
  | some _ => s
  | none => insertBal s u t ⟨0, 0⟩

/-- The four operation kinds of `BalanceService._update_balance`. -/
inductive BalanceOp where
  | amountIncrease
  | amountDecrease
  | lockedIncrease
  | lockedDecrease
deriving DecidableEq

/-- The operation `BalanceService._update_balance`: a single-column SQL update using the
row's own current value (`balances_table.c.amount + amount` etc.). -/
def updBal (s : State) (u : Nat) (t : String) (op : BalanceOp) (amt : Int) : State :=
  match op with
  | .amountIncrease => setBal s u t (fun r => { r with amount := r.amount + amt })
  | .amountDecrease => setBal s u t (fun r => { r with amount := r.amount - amt })
  | .lockedIncrease => setBal s u t (fun r => { r with locked := r.locked + amt })
  | .lockedDecrease => setBal s u t (fun r => { r with locked := r.locked - amt })

/-- The operation `BalanceService._execute_trade_atomic`: create the four balance rows if
missing, check the two locked-coverage preconditions, then perform exactly the
four updates of the source: decrease the buyer's locked RUB, increase the
buyer's asset amount, decrease the seller's locked asset, increase the
seller's RUB amount.  (The source never decreases the buyer's RUB `amount`
nor the seller's asset `amount`.) -/
def executeTradeAtomic (s : State) (buyerId sellerId : Nat) (tk : String)
    (qty price : Int) : Except String State :=
  let s0 := createBalanceIfNotExists
              (createBalanceIfNotExists
                (createBalanceIfNotExists
                  (createBalanceIfNotExists s buyerId "RUB") buyerId tk)
                sellerId "RUB") sellerId tk
  let buyerRub := getBalance s0 buyerId "RUB"
  let sellerTk := getBalance s0 sellerId tk
  let requiredRub := qty * price
  if buyerRub.locked < requiredRub then
    .error "Buyer insufficient locked RUB for trade."
  else if sellerTk.locked < qty then
    .error "Seller insufficient locked asset for trade."
  else
    let s1 := updBal s0 buyerId "RUB" .lockedDecrease requiredRub
    let s2 := updBal s1 buyerId tk .amountIncrease qty
    let s3 := updBal s2 sellerId tk .lockedDecrease qty
    let s4 := updBal s3 sellerId "RUB" .amountIncrease requiredRub
    .ok s4

/-! ### Matching engine -/

/-- SQL `SELECT ... FROM orders WHERE id = oid` (first row). -/
def findOrder (s : State) (oid : Nat) : Option Order :=
  s.orders.find? (fun o => decide (o.id = oid))

/-- Status of an order row, when present. -/
def statusOf (s : State) (oid : Nat) : Option OrderStatus :=
  (findOrder s oid).map (·.status)

/-- The ticker/status/residual/id conjuncts of the best-match query of
`MatchingEngine._find_best_match`. -/
def baseMatch (taker o : Order) : Bool :=
  decide (o.ticker = taker.ticker) &&
  (decide (o.status = OrderStatus.NEW) || decide (o.status = OrderStatus.PARTIALLY_EXECUTED)) &&
  decide (0 < o.qty - o.filledQty) &&
  decide (o.id ≠ taker.id)

/-- The SQL price constraint of the best-match query: absent for a market
taker; for a limit taker a NULL counter price fails the comparison. -/
def priceOk (taker o : Order) : Bool :=
  match taker.price with
  | none => true
  | some tp =>
    match o.price with
    | none => false
    | some p => if taker.direction = Direction.BUY then decide (p ≤ tp) else decide (tp ≤ p)

/-- Full row filter of the best-match query. -/
def codeCandidate (taker o : Order) : Bool :=
  baseMatch taker o &&
  (match taker.direction with
   | .BUY => decide (o.direction = Direction.SELL)
   | .SELL => decide (o.direction = Direction.BUY)) &&
  priceOk taker o

/-- The `ORDER BY` of the best-match query: `a` sorts strictly before `b`.
For a BUY taker the candidates are asks, ordered by price ASC (NULLS LAST)
then timestamp ASC; for a SELL taker by price DESC (NULLS FIRST) then
timestamp ASC. -/
def betterOrder (d : Direction) (a b : Order) : Bool :=
  match d with
  | .BUY =>
    match a.price, b.price with
    | some pa, some pb => decide (pa < pb) || (decide (pa = pb) && decide (a.timestamp < b.timestamp))
    | some _, none => true
    | none, some _ => false
    | none, none => decide (a.timestamp < b.timestamp)
  | .SELL =>
    match a.price, b.price with
    | some pa, some pb => decide (pb < pa) || (decide (pa = pb) && decide (a.timestamp < b.timestamp))
    | none, some _ => true
    | some _, none => false
    | none, none => decide (a.timestamp < b.timestamp)

/-- SQL `LIMIT 1` over the ordered candidates: keep the first-best row. -/
def pickGo (d : Direction) (b : Order) : List Order → Order
  | [] => b
  | o :: rest => pickGo d (if betterOrder d o b then o else b) rest

/-- The single best row of the filtered candidates, or none. -/
def pickBest (d : Direction) : List Order → Option Order
  | [] => none
  | o :: rest => some (pickGo d o rest)

/-- The query of `MatchingEngine._find_best_match`. -/
def findBestMatch (s : State) (taker : Order) : Option Order :=
  if taker.qty - taker.filledQty ≤ 0 then none
  else pickBest taker.direction (s.orders.filter (codeCandidate taker))

/-- Order-row update issued after a fill: set `filled_qty` and `status`. -/
def updateOrderFill (s : State) (oid : Nat) (filled : Int) (st : OrderStatus) : State :=
  { s with orders := (s.orders.map
      (fun o => if o.id = oid then { o with filledQty := filled, status := st } else o)) }

/-- Append a row to the trade tape. -/
def insertTrade (s : State) (t : Trade) : State :=
  { s with trades := s.trades ++ [t] }

/-- The immediate release step of `process_new_order` after a trade of a
market BUY taker: when the user's RUB record exists and its locked amount
covers the trade cost, unblock exactly that cost; otherwise leave the store
unchanged (the source only logs a warning). -/
def marketBuyTradeRelease (s1 : State) (u : Nat) (cost : Int) : State :=
  match findBal s1 u "RUB" with
  | some b => if cost ≤ b.locked then unblockFundsAtomic s1 u "RUB" cost else s1
  | none => s1

/-- The matching loop of `MatchingEngine.process_new_order`, with fuel for
structural recursion.  Each iteration finds the best counter-order, settles
the trade, immediately releases the spent cost of a market BUY taker,
appends the trade, and updates both orders' fill and status. -/
def matchLoop (isMarketBuy : Bool) : Nat → State → Order → Except String (State × Order)
  | 0, s, taker => .ok (s, taker)
  | fuel + 1, s, taker =>
    if taker.qty - taker.filledQty ≤ 0 then .ok (s, taker)
    else
      match findBestMatch s taker with
      | none => .ok (s, taker)
      | some counter =>
        match counter.price with
        | none => .error "TypeError: trade price is null"
        | some tradePrice =>
          let remNew := taker.qty - taker.filledQty
          let remCounter := counter.qty - counter.filledQty
          let tradeQty := min remNew remCounter
          if tradeQty ≤ 0 then .ok (s, taker)
          else
            let buyerId := if taker.direction = Direction.BUY then taker.userId else counter.userId
            let sellerId := if taker.direction = Direction.SELL then taker.userId else counter.userId
            match executeTradeAtomic s buyerId sellerId taker.ticker tradeQty tradePrice with
            | .error e => .error e
            | .ok s1 =>
              let s2 :=
                if isMarketBuy && decide (taker.userId = buyerId) then
                  marketBuyTradeRelease s1 taker.userId (tradeQty * tradePrice)
                else s1
              let s3 := insertTrade s2
                { ticker := taker.ticker, amount := tradeQty, price := tradePrice,
                  buyOrderId := if taker.direction = Direction.BUY then taker.id else counter.id,
                  sellOrderId := if taker.direction = Direction.SELL then taker.id else counter.id,
                  buyerUserId := buyerId, sellerUserId := sellerId }
              let newFilled := taker.filledQty + tradeQty
              let newStatus :=
                if newFilled = taker.qty then OrderStatus.EXECUTED
                else OrderStatus.PARTIALLY_EXECUTED
              let s4 := updateOrderFill s3 taker.id newFilled newStatus
              let cFilled := counter.filledQty + tradeQty
              let cStatus :=
                if cFilled = counter.qty then OrderStatus.EXECUTED
                else OrderStatus.PARTIALLY_EXECUTED
              let s5 := updateOrderFill s4 counter.id cFilled cStatus
              let taker' := { taker with filledQty := newFilled, status := newStatus }
              if newStatus = OrderStatus.EXECUTED then .ok (s5, taker')
              else matchLoop isMarketBuy fuel s5 taker'

/-- Post-loop reconciliation of `process_new_order` for a market BUY: release
the user's entire remaining locked RUB when positive. -/
def marketBuyPostRelease (s : State) (u : Nat) : State :=
  match findBal s u "RUB" with
  | some b => if 0 < b.locked then unblockFundsAtomic s u "RUB" b.locked else s
  | none => s

/-- The entry point `MatchingEngine.process_new_order`. -/
def processNewOrder (s : State) (oid : Nat) : Except String State :=
  match findOrder s oid with
  | none => .ok s
  | some o =>
    if ¬(o.status = OrderStatus.NEW ∨ o.status = OrderStatus.PARTIALLY_EXECUTED)
        ∨ o.qty - o.filledQty ≤ 0 then
      .ok s
    else
      let isMarketBuy := decide (o.direction = Direction.BUY) && decide (o.price = none)
      match matchLoop isMarketBuy ((o.qty - o.filledQty).toNat + 1) s o with
      | .error e => .error e
      | .ok (s1, taker) =>
        .ok (if isMarketBuy then marketBuyPostRelease s1 taker.userId else s1)

/-! ### Order service -/

/-- Row filter of the ask walk in `OrderService._estimate_market_order_cost`. -/
def askFilter (tk : String) (o : Order) : Bool :=
  decide (o.ticker = tk) && decide (o.direction = Direction.SELL) &&
  (decide (o.status = OrderStatus.NEW) || decide (o.status = OrderStatus.PARTIALLY_EXECUTED)) &&
  o.price.isSome && decide (0 < o.qty - o.filledQty)

/-- Ask ordering of the estimate query: price ASC, then timestamp ASC. -/
def askBefore (a b : Order) : Bool :=
  decide (a.price.getD 0 < b.price.getD 0) ||
  (decide (a.price.getD 0 = b.price.getD 0) && decide (a.timestamp ≤ b.timestamp))

/-- Insert an order into an ask-ordered list. -/
def insWalk (o : Order) : List Order → List Order
  | [] => [o]
  | a :: rest => if askBefore o a then o :: a :: rest else a :: insWalk o rest

/-- Sort asks by price ASC then timestamp ASC. -/
def sortAsks : List Order → List Order
  | [] => []
  | a :: rest => insWalk a (sortAsks rest)

/-- The accumulation loop of the estimate: returns the cost of walking the
sorted asks and the residual quantity that found no liquidity. -/
def walkAsks : List Order → Int → Int × Int
  | [], rem => (0, rem)
  | a :: rest, rem =>
    if rem ≤ 0 then (0, rem)
    else
      let available := min (a.qty - a.filledQty) rem
      let w := walkAsks rest (rem - available)
      (available * a.price.getD 0 + w.1, w.2)

/-- The operation `OrderService._estimate_market_order_cost`: the asset quantity for a SELL;
for a BUY, walk the ask side, topping the residual up with twice the last ask
price, or fall back to `qty * 1000` on an empty book. -/
def estimateMarketCost (s : State) (tk : String) (d : Direction) (qty : Int) : Int :=
  match d with
  | .SELL => qty
  | .BUY =>
    let asks := sortAsks (s.orders.filter (askFilter tk))
    match asks with
    | [] => qty * 1000
    | _ =>
      let w := walkAsks asks qty
      if 0 < w.2 then
        let lastPrice := ((asks.getLast?).map (fun o => o.price.getD 0)).getD 1000
        w.1 + w.2 * lastPrice * 2
      else w.1

/-- Incoming order payload: `price` is some for `LimitOrderBody` and none for
`MarketOrderBody`. -/
structure OrderBody where
  direction : Direction
  ticker : String
  qty : Int
  price : Option Int
deriving DecidableEq

/-- Errors of the order-placement path: `valueErr` models a Python
`ValueError` (business failure), `internalErr` any other exception. -/
inductive OrderErr where
  | valueErr (msg : String)
  | internalErr (msg : String)
deriving DecidableEq

/-- The ticker reserved at placement: RUB for a BUY, the asset for a SELL. -/
def reservationTicker (body : OrderBody) : String :=
  if body.direction = Direction.BUY then "RUB" else body.ticker

/-- The amount reserved at placement, as computed by `OrderService.create_order`. -/
def reservationAmount (s : State) (body : OrderBody) : Int :=
  if body.direction = Direction.BUY then
    match body.price with
    | some p => p * body.qty
    | none => estimateMarketCost s body.ticker Direction.BUY body.qty
  else
    match body.price with
    | some _ => body.qty
    | none => estimateMarketCost s body.ticker Direction.SELL body.qty

/-- The operation `OrderService.create_order`: validate, reserve, insert the NEW order and
run the matching engine; the caller supplies the fresh order id and the row
timestamp. -/
def createOrder (s : State) (userId : Nat) (body : OrderBody) (oid : Nat) (ts : Nat) :
    Except OrderErr (State × Nat) :=
  if body.price.isSome && decide (body.price.getD 0 ≤ 0) then
    .error (.valueErr "Price for limit order must be positive.")
  else if body.qty ≤ 0 then
    .error (.valueErr "Order quantity must be positive.")
  else if body.ticker ∉ s.instruments then
    .error (.valueErr "Instrument does not exist.")
  else
    let tickerToBlock := reservationTicker body
    let amountToBlock := reservationAmount s body
    let blockStep :=
      if 0 < amountToBlock then blockFundsAtomic s userId tickerToBlock amountToBlock
      else (s, true)
    if blockStep.2 = false then
      .error (.valueErr ("Insufficient balance of " ++ tickerToBlock ++ " to place order."))
    else
      let newOrder : Order :=
        { id := oid, userId := userId, ticker := body.ticker, direction := body.direction,
          qty := body.qty, price := body.price, status := OrderStatus.NEW, filledQty := 0,
          timestamp := ts }
      let s2 := { blockStep.1 with orders := blockStep.1.orders ++ [newOrder] }
      match processNewOrder s2 oid with
      | .error e => .error (.internalErr e)
      | .ok s3 => .ok (s3, oid)

/-- HTTP status of `create_order_endpoint`: 201 on success, 400 for a
`ValueError`, 500 for any other exception. -/
def createOrderHttpStatus (r : Except OrderErr (State × Nat)) : Nat :=
  match r with
  | .ok _ => 201
  | .error (.valueErr _) => 400
  | .error (.internalErr _) => 500

/-- Modelled from the spec: the admin deposit route `admin_deposit_funds`
calls `BalanceService.admin_update_or_create_balance(..., operation="deposit")`,
a method absent from the sources; per the spec sentence "`deposit(user,
ticker, delta > 0)` — creates or increments `amount`", the call is modelled by
the create-or-increment operation `adminDeposit` that is present in the
sources, and the route answers `{success: true}`. -/
def adminDepositEndpoint (s : State) (u : Nat) (t : String) (amt : Int) : State × Bool :=
  (adminDeposit s u t amt, true)

/-! ### Specification-side definitions

These definitions follow the wording of the specification's claims, to be
compared against the code-side definitions above. -/

/-- The balance invariant demanded by the spec for every committed row:
`amount ≥ locked_amount ≥ 0`; together with the schema's uniqueness of the
`(user_id, ticker)` key. -/
def InvRec (b : BalanceRec) : Prop := 0 ≤ b.locked ∧ b.locked ≤ b.amount

instance (b : BalanceRec) : Decidable (InvRec b) := by
  unfold InvRec
  infer_instance

/-- Well-formed store: unique balance keys and every row satisfies the
balance invariant. -/
def WF (s : State) : Prop :=
  (s.balances.map (·.1)).Nodup ∧ ∀ e ∈ s.balances, InvRec e.2

/-- The opposite trading direction. -/
def oppositeOf : Direction → Direction
  | .BUY => .SELL
  | .SELL => .BUY

/-- Candidate predicate as the claim words it: same ticker, status NEW or
PARTIALLY_EXECUTED, positive residual `qty - filled_qty`, id different from
the taker's, opposite direction, and for a limit taker a counter price that
crosses the taker price (`≤` for a BUY taker, `≥` for a SELL taker). -/
def specCandidate (taker o : Order) : Bool :=
  decide (o.ticker = taker.ticker) &&
  (decide (o.status = OrderStatus.NEW) || decide (o.status = OrderStatus.PARTIALLY_EXECUTED)) &&
  decide (0 < o.qty - o.filledQty) &&
  decide (o.id ≠ taker.id) &&
  decide (o.direction = oppositeOf taker.direction) &&
  (match taker.price, o.price with
   | none, _ => true
   | some _, none => false
   | some tp, some p =>
     if taker.direction = Direction.BUY then decide (p ≤ tp) else decide (tp ≤ p))

/-- Strict preference between two candidates as the claim words it: the
better price first (lowest for asks, i.e. a BUY taker; highest for bids),
with price ties broken by the earlier timestamp. -/
def specPrefer (d : Direction) (a b : Order) : Bool :=
  match a.price, b.price with
  | some pa, some pb =>
    (if d = Direction.BUY then decide (pa < pb) else decide (pb < pa)) ||
    (decide (pa = pb) && decide (a.timestamp < b.timestamp))
  | _, _ => false

/-- Total locked RUB over all users, the left-hand side of the claim's
locked-sum invariant for RUB. -/
def lockedRubTotal (s : State) : Int :=
  (s.balances.filter (fun e => decide (e.1.2 = "RUB"))).foldl
    (fun acc e => acc + e.2.locked) 0

/-- Sum over resting BUY limit orders of `price * (qty - filled_qty)`, the
limit-order part of the claim's right-hand side for RUB. -/
def restingBuyLimitRubLock (s : State) : Int :=
  (s.orders.filter (fun o =>
      decide (o.direction = Direction.BUY) && o.price.isSome &&
      (decide (o.status = OrderStatus.NEW) ||
       decide (o.status = OrderStatus.PARTIALLY_EXECUTED)))).foldl
    (fun acc o => acc + o.price.getD 0 * (o.qty - o.filledQty)) 0

/-- Every CANCELLED order of `s'` was already CANCELLED (same id) in `s`:
the passage from `s` to `s'` introduced no cancellation. -/
def cancelsFrom (s s' : State) : Prop :=
  ∀ o' ∈ s'.orders, o'.status = OrderStatus.CANCELLED →
    ∃ o ∈ s.orders, o.id = o'.id ∧ o.status = OrderStatus.CANCELLED

/-- The spec's status/fill correspondence for one order: EXECUTED exactly on
full fill, NEW exactly on zero fill, PARTIALLY_EXECUTED exactly on a proper
partial fill, and not CANCELLED. -/
def statusMatchesFill (o : Order) : Prop :=
  (o.status = OrderStatus.EXECUTED ↔ o.filledQty = o.qty) ∧
  (o.status = OrderStatus.NEW ↔ o.filledQty = 0) ∧
  (o.status = OrderStatus.PARTIALLY_EXECUTED ↔ (0 < o.filledQty ∧ o.filledQty < o.qty)) ∧
  o.status ≠ OrderStatus.CANCELLED

/-! ### Concrete fixtures for counterexamples and bug evaluations -/

/-- A resting market BUY order (id 1) of user 1 for 1 AAA. -/
def c3Order : Order :=
  { id := 1, userId := 1, ticker := "AAA", direction := .BUY, qty := 1,
    price := none, status := .NEW, filledQty := 0, timestamp := 1 }

/-- Store holding a resting market BUY order (id 1) of user 1 on an empty
book, with 1000 RUB fully locked by its reservation. -/
def c3State : State :=
  { instruments := ["AAA"]
    balances := [((1, "RUB"), ⟨1000, 1000⟩)]
    orders := [c3Order]
    trades := [] }

/-- The state after the matching pass processes the resting market BUY of
`c3State`: the locked RUB is fully released, the order rests unchanged. -/
def c2After : State :=
  { instruments := ["AAA"]
    balances := [((1, "RUB"), ⟨1000, 0⟩)]
    orders := [c3Order]
    trades := [] }

/-- Book with two resting SELL limit orders on AAA: id 2 at price 100
(timestamp 1) and id 3 at price 90 (timestamp 2). -/
def c6State : State :=
  { instruments := ["AAA"]
    balances := []
    orders := [{ id := 2, userId := 2, ticker := "AAA", direction := .SELL, qty := 1,
                 price := some 100, status := .NEW, filledQty := 0, timestamp := 1 },
               { id := 3, userId := 3, ticker := "AAA", direction := .SELL, qty := 1,
                 price := some 90, status := .NEW, filledQty := 0, timestamp := 2 }]
    trades := [] }

/-- A limit BUY taker (id 1) at price 100 for 1 AAA. -/
def c6Taker : Order :=
  { id := 1, userId := 1, ticker := "AAA", direction := .BUY, qty := 1,
    price := some 100, status := .NEW, filledQty := 0, timestamp := 3 }

/-- Store holding a single CANCELLED order (id 9). -/
def cancelledOrderState : State :=
  { instruments := ["AAA"]
    balances := []
    orders := [{ id := 9, userId := 1, ticker := "AAA", direction := .SELL, qty := 2,
                 price := some 10, status := .CANCELLED, filledQty := 0, timestamp := 1 }]
    trades := [] }

/-- Pre-trade store for the settlement evaluation: buyer 1 has 1000 RUB of
which 500 locked, seller 2 has 10 AAA of which 5 locked. -/
def c1Pre : State :=
  { instruments := ["AAA"]
    balances := [((1, "RUB"), ⟨1000, 500⟩), ((2, "AAA"), ⟨10, 5⟩)]
    orders := [], trades := [] }

/-- Store with one user holding 1000 RUB and an empty book on AAA. -/
def emptyBookState : State :=
  { instruments := ["AAA"]
    balances := [((1, "RUB"), ⟨1000, 0⟩)]
    orders := [], trades := [] }

/-- A market BUY request for 1 AAA. -/
def marketBuyAAA : OrderBody :=
  { direction := .BUY, ticker := "AAA", qty := 1, price := none }

/-- Store for the locked-sum evaluation: user 1 holds 1000 RUB, user 2 holds
10 AAA; instruments AAA and BBB. -/
def c4Start : State :=
  { instruments := ["AAA", "BBB"]
    balances := [((1, "RUB"), ⟨1000, 0⟩), ((2, "AAA"), ⟨10, 0⟩)]
    orders := [], trades := [] }

/-- User 1 rests a BUY 1 BBB @ 500 limit order (locks 500 RUB). -/
def restingBuyBBB : OrderBody :=
  { direction := .BUY, ticker := "BBB", qty := 1, price := some 500 }

/-- User 2 rests a SELL 1 AAA @ 100 limit order. -/
def restingSellAAA : OrderBody :=
  { direction := .SELL, ticker := "AAA", qty := 1, price := some 100 }

/-- Store for the insufficient-funds scenario: user 1 holds 100 RUB. -/
def c7State : State :=
  { instruments := ["AAA"]
    balances := [((1, "RUB"), ⟨100, 0⟩)]
    orders := [], trades := [] }

/-- A limit BUY of 2 AAA at price 60 (requires a 120 RUB reservation). -/
def c7Body : OrderBody :=
  { direction := .BUY, ticker := "AAA", qty := 2, price := some 60 }

/-- The three-placement trace of the locked-sum evaluation: user 1 rests a
BUY limit on BBB, user 2 rests a SELL limit on AAA, then user 1 places a
market BUY on AAA which fully executes. -/
def c4Run : Except OrderErr State :=
  (createOrder c4Start 1 restingBuyBBB 1 1).bind fun p1 =>
  (createOrder p1.1 2 restingSellAAA 2 2).bind fun p2 =>
  (createOrder p2.1 1 marketBuyAAA 3 3).map fun p3 => p3.1

/-! ### Helper lemmas: the balance table -/

theorem balFind_eq_none {l : List ((Nat × String) × BalanceRec)} {k : Nat × String} :
    balFind l k = none ↔ ∀ e ∈ l, e.1 ≠ k := by
  simp [balFind, List.find?_eq_none]

theorem balFind_mem {l : List ((Nat × String) × BalanceRec)} {k : Nat × String}
    {b : BalanceRec} (h : balFind l k = some b) : (k, b) ∈ l := by
  unfold balFind at h
  rcases Option.map_eq_some'.mp h with ⟨e, he, hb⟩
  have hm := List.mem_of_find?_eq_some he
  have hp := List.find?_some he
  simp only [decide_eq_true_eq] at hp
  obtain ⟨k0, b0⟩ := e
  cases hp
  cases hb
  exact hm

theorem balFind_append {l l' : List ((Nat × String) × BalanceRec)} {k : Nat × String} :
    balFind (l ++ l') k = (balFind l k).or (balFind l' k) := by
  unfold balFind
  rw [List.find?_append]
  cases l.find? (fun e => decide (e.1 = k)) <;> rfl

theorem balFind_balSet_same {l : List ((Nat × String) × BalanceRec)} {k : Nat × String}
    {f : BalanceRec → BalanceRec} : balFind (balSet l k f) k = (balFind l k).map f := by
  induction l with
  | nil => rfl
  | cons e rest ih =>
    by_cases h : e.1 = k
    · simp [balSet, balFind, List.find?_cons_of_pos, h]
    · simp only [balSet, List.map_cons, if_neg h]
      unfold balFind at *
      rw [List.find?_cons_of_neg _ (by simpa using h), List.find?_cons_of_neg _ (by simpa using h)]
      exact ih

theorem balFind_balSet_ne {l : List ((Nat × String) × BalanceRec)} {k k' : Nat × String}
    {f : BalanceRec → BalanceRec} (h : k' ≠ k) :
    balFind (balSet l k f) k' = balFind l k' := by
  induction l with
  | nil => rfl
  | cons e rest ih =>
    by_cases he : e.1 = k
    · simp only [balSet, List.map_cons, if_pos he]
      unfold balFind at *
      rw [List.find?_cons_of_neg _ (by simp [he]; exact fun hc => h hc.symm),
          List.find?_cons_of_neg _ (by simp [he]; exact fun hc => h hc.symm)]
      exact ih
    · simp only [balSet, List.map_cons, if_neg he]
      by_cases hk' : e.1 = k'
      · unfold balFind at *
        rw [List.find?_cons_of_pos _ (by simpa using hk'),
            List.find?_cons_of_pos _ (by simpa using hk')]
      · unfold balFind at *
        rw [List.find?_cons_of_neg _ (by simpa using hk'),
            List.find?_cons_of_neg _ (by simpa using hk')]
        exact ih

theorem keys_balSet {l : List ((Nat × String) × BalanceRec)} {k : Nat × String}
    {f : BalanceRec → BalanceRec} : (balSet l k f).map (·.1) = l.map (·.1) := by
  induction l with
  | nil => rfl
  | cons e rest ih =>
    by_cases h : e.1 = k <;> simp [balSet, h] at ih ⊢ <;> exact ih

theorem balFind_of_mem_nodup {l : List ((Nat × String) × BalanceRec)} {k : Nat × String}
    {b : BalanceRec} (hn : (l.map (·.1)).Nodup) (hm : (k, b) ∈ l) :
    balFind l k = some b := by
  induction l with
  | nil => cases hm
  | cons e rest ih =>
    rcases List.mem_cons.mp hm with h | h
    · cases h.symm
      unfold balFind
      rw [List.find?_cons_of_pos _ (by simp)]
      rfl
    · have hk : e.1 ≠ k := by
        intro hek
        have : k ∈ rest.map (·.1) := List.mem_map.mpr ⟨(k, b), h, rfl⟩
        simp only [List.map_cons, List.nodup_cons] at hn
        exact hn.1 (hek ▸ this)
      unfold balFind
      rw [List.find?_cons_of_neg _ (by simpa using hk)]
      exact ih (by simp only [List.map_cons, List.nodup_cons] at hn; exact hn.2) h

theorem findBal_setBal_self {s : State} {u : Nat} {t : String} {f : BalanceRec → BalanceRec} :
    findBal (setBal s u t f) u t = (findBal s u t).map f :=
  balFind_balSet_same

theorem findBal_setBal_ne {s : State} {u u' : Nat} {t t' : String}
    {f : BalanceRec → BalanceRec} (h : (u', t') ≠ (u, t)) :
    findBal (setBal s u t f) u' t' = findBal s u' t' :=
  balFind_balSet_ne h

theorem findBal_insertBal_self {s : State} {u : Nat} {t : String} {b : BalanceRec}
    (h : findBal s u t = none) : findBal (insertBal s u t b) u t = some b := by
  unfold findBal insertBal at *
  rw [balFind_append, h]
  simp [balFind]

theorem findBal_insertBal_ne {s : State} {u u' : Nat} {t t' : String} {b : BalanceRec}
    (h : (u', t') ≠ (u, t)) : findBal (insertBal s u t b) u' t' = findBal s u' t' := by
  unfold findBal insertBal at *
  rw [balFind_append]
  have : balFind [((u, t), b)] (u', t') = none :=
    balFind_eq_none.mpr (by
      intro e he
      simp only [List.mem_singleton] at he
      subst he
      exact fun hc => h hc.symm)
  rw [this]
  cases balFind s.balances (u', t') <;> rfl

theorem getBalance_setBal_self {s : State} {u : Nat} {t : String}
    {f : BalanceRec → BalanceRec} {b : BalanceRec} (h : findBal s u t = some b) :
    getBalance (setBal s u t f) u t = f b := by
  unfold getBalance
  rw [findBal_setBal_self, h]
  rfl

theorem getBalance_setBal_ne {s : State} {u u' : Nat} {t t' : String}
    {f : BalanceRec → BalanceRec} (h : (u', t') ≠ (u, t)) :
    getBalance (setBal s u t f) u' t' = getBalance s u' t' := by
  unfold getBalance
  rw [findBal_setBal_ne h]

/-! ### Helper lemmas: well-formedness preservation -/

theorem WF_setBal_at {s : State} {u : Nat} {t : String} {f : BalanceRec → BalanceRec}
    {b : BalanceRec} (hwf : WF s) (hb : findBal s u t = some b) (hinv : InvRec (f b)) :
    WF (setBal s u t f) := by
  constructor
  · show ((balSet s.balances (u, t) f).map (·.1)).Nodup
    rw [keys_balSet]
    exact hwf.1
  · intro e he
    obtain ⟨a, ha, hae⟩ := List.mem_map.mp he
    by_cases hk : a.1 = (u, t)
    · have hfa : balFind s.balances (u, t) = some a.2 := by
        apply balFind_of_mem_nodup hwf.1
        have : a = ((u, t), a.2) := by rw [← hk]
        rw [← this]
        exact ha
      have hab : a.2 = b := by
        have := hfa.symm.trans hb
        exact Option.some.inj this
      rw [if_pos hk] at hae
      rw [← hae]
      simpa [hab] using hinv
    · rw [if_neg hk] at hae
      rw [← hae]
      exact hwf.2 a ha

theorem WF_setBal_mono {s : State} {u : Nat} {t : String} {f : BalanceRec → BalanceRec}
    (hwf : WF s) (hf : ∀ r, InvRec r → InvRec (f r)) : WF (setBal s u t f) := by
  constructor
  · show ((balSet s.balances (u, t) f).map (·.1)).Nodup
    rw [keys_balSet]
    exact hwf.1
  · intro e he
    obtain ⟨a, ha, hae⟩ := List.mem_map.mp he
    by_cases hk : a.1 = (u, t)
    · rw [if_pos hk] at hae
      rw [← hae]
      exact hf a.2 (hwf.2 a ha)
    · rw [if_neg hk] at hae
      rw [← hae]
      exact hwf.2 a ha

theorem WF_insertBal {s : State} {u : Nat} {t : String} {b : BalanceRec}
    (hwf : WF s) (habs : findBal s u t = none) (hinv : InvRec b) :
    WF (insertBal s u t b) := by
  constructor
  · show ((s.balances ++ [((u, t), b)]).map (·.1)).Nodup
    rw [List.map_append, List.nodup_append]
    refine ⟨hwf.1, by simp, ?_⟩
    intro k hk hk'
    simp only [List.map_cons, List.map_nil, List.mem_singleton] at hk'
    obtain ⟨e, he, hek⟩ := List.mem_map.mp hk
    exact (balFind_eq_none.mp habs e he) (by rw [hek, hk'])
  · intro e he
    rcases List.mem_append.mp he with h | h
    · exact hwf.2 e h
    · simp only [List.mem_singleton] at h
      rw [h]
      exact hinv

theorem WF_createBalance {s : State} {u : Nat} {t : String} (hwf : WF s) :
    WF (createBalanceIfNotExists s u t) := by
  unfold createBalanceIfNotExists
  cases h : findBal s u t with
  | some b => exact hwf
  | none => exact WF_insertBal hwf h ⟨le_refl 0, le_refl 0⟩

theorem getBalance_createBalance {s : State} {u u' : Nat} {t t' : String} :
    getBalance (createBalanceIfNotExists s u t) u' t' = getBalance s u' t' := by
  unfold createBalanceIfNotExists
  cases h : findBal s u t with
  | some b => rfl
  | none =>
    by_cases hk : (u', t') = (u, t)
    · obtain ⟨h1, h2⟩ := Prod.mk.injEq .. ▸ hk
      subst h1; subst h2
      unfold getBalance
      rw [findBal_insertBal_self h, h]
      rfl
    · unfold getBalance
      rw [findBal_insertBal_ne hk]

theorem findBal_createBalance_isSome {s : State} {u : Nat} {t : String} :
    (findBal (createBalanceIfNotExists s u t) u t).isSome := by
  unfold createBalanceIfNotExists
  cases h : findBal s u t with
  | some b => simp [h]
  | none => rw [findBal_insertBal_self h]; rfl

theorem findBal_createBalance_mono {s : State} {u u' : Nat} {t t' : String}
    (h : (findBal s u' t').isSome) :
    (findBal (createBalanceIfNotExists s u t) u' t').isSome := by
  unfold createBalanceIfNotExists
  cases hf : findBal s u t with
  | some b => exact h
  | none =>
    by_cases hk : (u', t') = (u, t)
    · obtain ⟨h1, h2⟩ := Prod.mk.injEq .. ▸ hk
      subst h1; subst h2
      rw [findBal_insertBal_self hf]
      rfl
    · rw [findBal_insertBal_ne hk]
      exact h

theorem findBal_setBal_isSome {s : State} {u u' : Nat} {t t' : String}
    {f : BalanceRec → BalanceRec} (h : (findBal s u' t').isSome) :
    (findBal (setBal s u t f) u' t').isSome := by
  by_cases hk : (u', t') = (u, t)
  · obtain ⟨h1, h2⟩ := Prod.mk.injEq .. ▸ hk
    subst h1; subst h2
    rw [findBal_setBal_self]
    cases hf : findBal s u' t' with
    | none => rw [hf] at h; cases h
    | some b => rfl
  · rw [findBal_setBal_ne hk]
    exact h

/-! ### Helper lemmas: frame conditions of balance operations -/

theorem orders_setBal {s : State} {u : Nat} {t : String} {f : BalanceRec → BalanceRec} :
    (setBal s u t f).orders = s.orders := rfl

theorem orders_insertBal {s : State} {u : Nat} {t : String} {b : BalanceRec} :
    (insertBal s u t b).orders = s.orders := rfl

theorem orders_unblock {s : State} {u : Nat} {t : String} {amt : Int} :
    (unblockFundsAtomic s u t amt).orders = s.orders := by
  unfold unblockFundsAtomic
  cases findBal s u t <;> rfl

theorem trades_unblock {s : State} {u : Nat} {t : String} {amt : Int} :
    (unblockFundsAtomic s u t amt).trades = s.trades := by
  unfold unblockFundsAtomic
  cases findBal s u t <;> rfl

theorem orders_createBalance {s : State} {u : Nat} {t : String} :
    (createBalanceIfNotExists s u t).orders = s.orders := by
  unfold createBalanceIfNotExists
  cases findBal s u t <;> rfl

theorem orders_updBal {s : State} {u : Nat} {t : String} {op : BalanceOp} {amt : Int} :
    (updBal s u t op amt).orders = s.orders := by
  cases op <;> rfl

theorem orders_executeTrade {s s' : State} {buyerId sellerId : Nat} {tk : String}
    {qty price : Int} (h : executeTradeAtomic s buyerId sellerId tk qty price = .ok s') :
    s'.orders = s.orders := by
  unfold executeTradeAtomic at h
  dsimp only at h
  split at h
  · cases h
  · split at h
    · cases h
    · cases h
      simp [orders_updBal, orders_createBalance]

theorem trades_executeTrade {s s' : State} {buyerId sellerId : Nat} {tk : String}
    {qty price : Int} (h : executeTradeAtomic s buyerId sellerId tk qty price = .ok s') :
    s'.trades = s.trades := by
  unfold executeTradeAtomic at h
  dsimp only at h
  split at h
  · cases h
  · split at h
    · cases h
    · cases h
      have h1 : ∀ (s0 : State) u t (op : BalanceOp) amt, (updBal s0 u t op amt).trades = s0.trades := by
        intro s0 u t op amt
        cases op <;> rfl
      have h2 : ∀ (s0 : State) u t, (createBalanceIfNotExists s0 u t).trades = s0.trades := by
        intro s0 u t
        unfold createBalanceIfNotExists
        cases findBal s0 u t <;> rfl
      simp [h1, h2]

theorem orders_marketBuyPostRelease {s : State} {u : Nat} :
    (marketBuyPostRelease s u).orders = s.orders := by
  unfold marketBuyPostRelease
  cases hf : findBal s u "RUB" with
  | none => rfl
  | some b =>
    dsimp only
    by_cases h : 0 < b.locked
    · rw [if_pos h, orders_unblock]
    · rw [if_neg h]

/-! ### Helper lemmas: the four update kinds of `_update_balance` -/

theorem updBal_lockedDecrease_def {s : State} {u : Nat} {t : String} {amt : Int} :
    updBal s u t .lockedDecrease amt =
      setBal s u t (fun r => { r with locked := r.locked - amt }) := rfl

theorem updBal_amountIncrease_def {s : State} {u : Nat} {t : String} {amt : Int} :
    updBal s u t .amountIncrease amt =
      setBal s u t (fun r => { r with amount := r.amount + amt }) := rfl

theorem getBalance_updBal_ne {s : State} {u u' : Nat} {t t' : String} {op : BalanceOp}
    {amt : Int} (h : (u', t') ≠ (u, t)) :
    getBalance (updBal s u t op amt) u' t' = getBalance s u' t' := by
  cases op <;> exact getBalance_setBal_ne h

theorem findBal_updBal_isSome {s : State} {u u' : Nat} {t t' : String} {op : BalanceOp}
    {amt : Int} (h : (findBal s u' t').isSome) :
    (findBal (updBal s u t op amt) u' t').isSome := by
  cases op <;> exact findBal_setBal_isSome h

theorem getBalance_amountIncrease_self {s : State} {u : Nat} {t : String} {amt : Int}
    {b : BalanceRec} (hb : findBal s u t = some b) :
    getBalance (updBal s u t .amountIncrease amt) u t = ⟨b.amount + amt, b.locked⟩ := by
  unfold updBal
  rw [getBalance_setBal_self hb]

theorem WF_updBal_amountIncrease {s : State} {u : Nat} {t : String} {amt : Int}
    (hwf : WF s) (h : 0 ≤ amt) : WF (updBal s u t .amountIncrease amt) := by
  refine WF_setBal_mono hwf (fun r hr => ?_)
  have h1 := hr.1
  have h2 := hr.2
  exact ⟨by dsimp only; omega, by dsimp only; omega⟩

theorem WF_updBal_lockedDecrease {s : State} {u : Nat} {t : String} {amt : Int}
    {b : BalanceRec} (hwf : WF s) (hb : findBal s u t = some b)
    (h1 : amt ≤ b.locked) (h2 : 0 ≤ amt) : WF (updBal s u t .lockedDecrease amt) := by
  have hib : InvRec b := hwf.2 _ (balFind_mem hb)
  have h3 := hib.1
  have h4 := hib.2
  exact WF_setBal_at hwf hb ⟨by dsimp only; omega, by dsimp only; omega⟩

/-! ### Helper lemmas: failed reservations -/

theorem availableOf_nonneg {s : State} {u : Nat} {t : String} (hwf : WF s) :
    0 ≤ availableOf s u t := by
  unfold availableOf getBalance
  cases h : findBal s u t with
  | none => simp
  | some b =>
    have hib : InvRec b := hwf.2 _ (balFind_mem h)
    have h1 := hib.2
    dsimp only [Option.getD]
    omega

theorem blockFunds_refuses {s : State} {u : Nat} {t : String} {amt : Int}
    (hwf : WF s) (hav : availableOf s u t < amt) :
    (blockFundsAtomic s u t amt).2 = false := by
  unfold blockFundsAtomic
  cases h : findBal s u t with
  | none => rfl
  | some b =>
    have hib : InvRec b := hwf.2 _ (balFind_mem h)
    have hl : ¬ b.locked < 0 := by have := hib.1; omega
    have hav' : b.amount - b.locked < amt := by
      have : availableOf s u t = b.amount - b.locked := by
        unfold availableOf getBalance
        rw [h]
        rfl
      omega
    dsimp only
    rw [if_neg hl, if_neg hl, if_pos hav']

theorem blockFunds_fail_preserves_available {s : State} {u : Nat} {t : String}
    {amt : Int} (hwf : WF s) (hav : availableOf s u t < amt) :
    ∀ (u' : Nat) (t' : String),
      availableOf (blockFundsAtomic s u t amt).1 u' t' = availableOf s u' t' := by
  intro u' t'
  unfold blockFundsAtomic
  cases h : findBal s u t with
  | none =>
    dsimp only
    by_cases hk : (u', t') = (u, t)
    · obtain ⟨h1, h2⟩ := Prod.mk.injEq .. ▸ hk
      subst h1; subst h2
      unfold availableOf getBalance
      rw [findBal_insertBal_self h, h]
      rfl
    · unfold availableOf getBalance
      rw [findBal_insertBal_ne hk]
  | some b =>
    have hib : InvRec b := hwf.2 _ (balFind_mem h)
    have hl : ¬ b.locked < 0 := by have := hib.1; omega
    have hav' : b.amount - b.locked < amt := by
      have : availableOf s u t = b.amount - b.locked := by
        unfold availableOf getBalance
        rw [h]
        rfl
      omega
    dsimp only
    rw [if_neg hl, if_neg hl, if_pos hav']

/-! ### Claim theorems -/

/-- C5: starting from a well-formed store (unique keys, `amount ≥
locked_amount ≥ 0` in every row), each ledger operation preserves the balance
invariant: a positive deposit, a reserve attempt (which moreover refuses
whenever `amount - locked_amount < delta`), a release (which clamps the
locked amount at zero), and a settlement that returns successfully — the
latter under its two checked locked-coverage preconditions, excluding only
the degenerate self-trade of the cash ticker RUB against itself, which no
order flow produces since cash reservations cover both legs. -/
theorem ledger_ops_preserve_balance_invariant :
    ∀ (s : State) (u : Nat) (t : String) (dep blk unb : Int)
      (buyerId sellerId : Nat) (tk : String) (qty price : Int),
      WF s →
      (0 < dep → WF (adminDeposit s u t dep)) ∧
      (0 < blk → WF (blockFundsAtomic s u t blk).1) ∧
      (availableOf s u t < blk → (blockFundsAtomic s u t blk).2 = false) ∧
      (0 < unb → WF (unblockFundsAtomic s u t unb)) ∧
      (∀ s', 0 < qty → 0 < price → ¬(buyerId = sellerId ∧ tk = "RUB") →
        executeTradeAtomic s buyerId sellerId tk qty price = .ok s' → WF s') := by
  intro s u t dep blk unb buyerId sellerId tk qty price hwf
  refine ⟨?_, ?_, ?_, ?_, ?_⟩
  · -- deposit
    intro hdep
    unfold adminDeposit
    cases h : findBal s u t with
    | none => exact WF_insertBal hwf h ⟨le_refl 0, le_of_lt hdep⟩
    | some b =>
      have hib : InvRec b := hwf.2 _ (balFind_mem h)
      have h3 := hib.1
      have h4 := hib.2
      exact WF_setBal_at hwf h ⟨by dsimp only; omega, by dsimp only; omega⟩
  · -- reserve preserves WF
    intro _
    unfold blockFundsAtomic
    cases h : findBal s u t with
    | none => exact WF_insertBal hwf h ⟨le_refl 0, le_refl 0⟩
    | some b =>
      have hib : InvRec b := hwf.2 _ (balFind_mem h)
      have hl : ¬ b.locked < 0 := by have := hib.1; omega
      dsimp only
      rw [if_neg hl, if_neg hl]
      by_cases hav : b.amount - b.locked < blk
      · rw [if_pos hav]
        exact hwf
      · rw [if_neg hav, if_neg (by omega)]
        have h3 := hib.1
        have h4 := hib.2
        exact WF_setBal_at hwf h ⟨by dsimp only; omega, by dsimp only; omega⟩
  · -- reserve refuses on insufficient available
    intro hav
    exact blockFunds_refuses hwf hav
  · -- release preserves WF (clamping at zero)
    intro _
    unfold unblockFundsAtomic
    cases h : findBal s u t with
    | none => exact hwf
    | some b =>
      have hib : InvRec b := hwf.2 _ (balFind_mem h)
      have h1 := hib.1
      have h2 := hib.2
      exact WF_setBal_at hwf h
        ⟨by dsimp only; omega, by dsimp only; rw [max_le_iff]; omega⟩
  · -- settlement preserves WF
    intro s' hq hp hns h
    unfold executeTradeAtomic at h
    dsimp only at h
    set s0 := createBalanceIfNotExists
        (createBalanceIfNotExists
          (createBalanceIfNotExists
            (createBalanceIfNotExists s buyerId "RUB") buyerId tk)
          sellerId "RUB") sellerId tk with hs0
    have hwf0 : WF s0 :=
      WF_createBalance (WF_createBalance (WF_createBalance (WF_createBalance hwf)))
    have hsome1 : (findBal s0 buyerId "RUB").isSome :=
      findBal_createBalance_mono (findBal_createBalance_mono
        (findBal_createBalance_mono findBal_createBalance_isSome))
    have hsome2 : (findBal s0 sellerId tk).isSome := findBal_createBalance_isSome
    split at h
    · cases h
    · split at h
      · cases h
      · cases h
        rename_i hbuy hsell
        obtain ⟨b1, hb1⟩ := Option.isSome_iff_exists.mp hsome1
        obtain ⟨b2, hb2⟩ := Option.isSome_iff_exists.mp hsome2
        have hg1 : getBalance s0 buyerId "RUB" = b1 := by unfold getBalance; rw [hb1]; rfl
        have hg2 : getBalance s0 sellerId tk = b2 := by unfold getBalance; rw [hb2]; rfl
        rw [hg1] at hbuy
        rw [hg2] at hsell
        have hcost : (0 : Int) < qty * price := mul_pos hq hp
        -- leg 1: buyer's locked RUB decreases by the cost
        have hwf1 : WF (updBal s0 buyerId "RUB" .lockedDecrease (qty * price)) :=
          WF_updBal_lockedDecrease hwf0 hb1 (by omega) (le_of_lt hcost)
        -- leg 2: buyer's asset amount increases
        have hwf2 : WF (updBal (updBal s0 buyerId "RUB" .lockedDecrease (qty * price))
            buyerId tk .amountIncrease qty) :=
          WF_updBal_amountIncrease hwf1 (le_of_lt hq)
        -- the seller's asset row is untouched by legs 1 and 2 except possibly
        -- an amount increase, so its locked amount still covers qty
        have hne1 : (sellerId, tk) ≠ (buyerId, "RUB") := by
          intro hc
          obtain ⟨hcu, hct⟩ := Prod.mk.injEq .. ▸ hc
          exact hns ⟨hcu.symm, hct⟩
        by_cases hsb : sellerId = buyerId
        · -- self-trade on a non-RUB asset: leg 2 touched the seller's asset
          -- row but only its amount
          subst hsb
          have hf1 : findBal (updBal s0 sellerId "RUB" .lockedDecrease (qty * price))
              sellerId tk = some b2 := by
            rw [updBal_lockedDecrease_def, findBal_setBal_ne hne1]
            exact hb2
          have hb3 : findBal (updBal (updBal s0 sellerId "RUB" .lockedDecrease (qty * price))
              sellerId tk .amountIncrease qty) sellerId tk = some ⟨b2.amount + qty, b2.locked⟩ := by
            rw [updBal_amountIncrease_def, findBal_setBal_self, hf1]
            rfl
          have hwf3 : WF (updBal (updBal (updBal s0 sellerId "RUB"
              .lockedDecrease (qty * price)) sellerId tk .amountIncrease qty)
              sellerId tk .lockedDecrease qty) :=
            WF_updBal_lockedDecrease hwf2 hb3 (by dsimp only; omega) (le_of_lt hq)
          exact WF_updBal_amountIncrease hwf3 (le_of_lt hcost)
        · -- distinct buyer and seller: the seller's asset row is untouched
          have hne2 : (sellerId, tk) ≠ (buyerId, tk) := by
            intro hc
            exact hsb (congrArg Prod.fst hc)
          have hb3 : findBal (updBal (updBal s0 buyerId "RUB" .lockedDecrease (qty * price))
              buyerId tk .amountIncrease qty) sellerId tk = some b2 := by
            rw [updBal_amountIncrease_def, findBal_setBal_ne hne2,
                updBal_lockedDecrease_def, findBal_setBal_ne hne1]
            exact hb2
          have hwf3 : WF (updBal (updBal (updBal s0 buyerId "RUB"
              .lockedDecrease (qty * price)) buyerId tk .amountIncrease qty)
              sellerId tk .lockedDecrease qty) :=
            WF_updBal_lockedDecrease hwf2 hb3 (by omega) (le_of_lt hq)
          exact WF_updBal_amountIncrease hwf3 (le_of_lt hcost)

/-- C5 witness: the one-user store with RUB `(1000, 0)` is well-formed, and
the five conjuncts hold at deposit 7, reserve 5, release 3, and a settlement
of 2 AAA at price 10 between users 1 and 2. -/
theorem ledger_ops_preserve_balance_invariant_witness :
    WF emptyBookState ∧
    ((0 : Int) < 7 → WF (adminDeposit emptyBookState 1 "RUB" 7)) ∧
    ((0 : Int) < 5 → WF (blockFundsAtomic emptyBookState 1 "RUB" 5).1) ∧
    (availableOf emptyBookState 1 "RUB" < 5 →
      (blockFundsAtomic emptyBookState 1 "RUB" 5).2 = false) ∧
    ((0 : Int) < 3 → WF (unblockFundsAtomic emptyBookState 1 "RUB" 3)) ∧
    (∀ s', (0 : Int) < 2 → (0 : Int) < 10 → ¬((1 : Nat) = 2 ∧ "AAA" = "RUB") →
      executeTradeAtomic emptyBookState 1 2 "AAA" 2 10 = .ok s' → WF s') :=
  ⟨⟨by decide, by decide⟩,
   ledger_ops_preserve_balance_invariant emptyBookState 1 "RUB" 7 5 3 1 2 "AAA" 2 10
     ⟨by decide, by decide⟩⟩

/-- C1: the claim states that settling a trade debits the buyer's RUB
`amount` (and locked) by `qty*price` and the seller's asset `amount` (and
locked) by `qty`.  Evaluating `_execute_trade_atomic` at a concrete trade
(buyer 1 with RUB `(1000, 500)`, seller 2 with AAA `(10, 5)`, qty 5 at price
100) shows the code decreases only the locked compartments: the buyer's RUB
amount stays 1000 instead of 500 and the seller's AAA amount stays 10 instead
of 5, while the seller is still credited 500 RUB and the buyer 5 AAA. -/
theorem settle_leaves_amounts_undebited :
    (executeTradeAtomic c1Pre 1 2 "AAA" 5 100).map
      (fun s' => (getBalance s' 1 "RUB", getBalance s' 2 "AAA",
                  getBalance s' 1 "AAA", getBalance s' 2 "RUB"))
      = .ok (⟨1000, 0⟩, ⟨10, 0⟩, ⟨5, 0⟩, ⟨500, 0⟩) ∧
    (1000 : Int) ≠ 1000 - 5 * 100 ∧ (10 : Int) ≠ 10 - 5 :=
  ⟨rfl, by decide, by decide⟩

/-- C2 counterexample: a market BUY of 1 AAA on an empty book is left in
status NEW after its matching pass — not EXECUTED and not CANCELLED — so the
committed status of a market order is not terminal. -/
theorem market_order_rests_after_pass :
    (createOrder emptyBookState 1 marketBuyAAA 1 1).map (fun p => statusOf p.1 1)
      = .ok (some OrderStatus.NEW) ∧
    some OrderStatus.NEW ≠ some OrderStatus.EXECUTED ∧
    some OrderStatus.NEW ≠ some OrderStatus.CANCELLED :=
  ⟨rfl, by decide, by decide⟩

/-- C3 counterexample: a market BUY whose pass produces no fills is not
cancelled and no `NoLiquidity` error reaches the caller: the placement
returns HTTP 201 (not 400), the order stays NEW on the book, and the
reservation is released. -/
theorem no_liquidity_returns_success :
    createOrderHttpStatus (createOrder emptyBookState 1 marketBuyAAA 1 1) = 201 ∧
    (201 : Nat) ≠ 400 ∧
    (createOrder emptyBookState 1 marketBuyAAA 1 1).map
      (fun p => ((getBalance p.1 1 "RUB").locked, statusOf p.1 1))
      = .ok (0, some OrderStatus.NEW) :=
  ⟨rfl, by decide, rfl⟩

/-- C4: the claim states the locked-RUB sum always equals the backing
required by resting BUY orders, and that processing one market BUY never
releases locked RUB backing the user's other resting orders.  In the trace
`c4Run`, user 1 rests BUY 1 BBB @ 500 (backing 500 locked RUB), then places
a market BUY on AAA that fully executes; the engine's post-loop releases the
user's ENTIRE locked RUB, leaving total locked RUB 0 while the resting BUY
limit order (still NEW) requires 500. -/
theorem market_buy_release_breaks_locked_sum :
    c4Run.map (fun s => (lockedRubTotal s, restingBuyLimitRubLock s,
                         statusOf s 1, statusOf s 3))
      = .ok (0, 500, some OrderStatus.NEW, some OrderStatus.EXECUTED) ∧
    (0 : Int) ≠ 500 :=
  ⟨rfl, by decide⟩

/-- C8 counterexample: `get_all_balances` never special-cases RUB.  A user
whose only row is RUB `(5, 5)` (available 0) receives an empty map, with no
RUB key reported at all — contradicting "always includes the key RUB". -/
theorem get_all_balances_omits_rub :
    getAllBalances
      { instruments := [], balances := [((1, "RUB"), ⟨5, 5⟩)],
        orders := [], trades := [] } 1 = [] ∧
    ¬ ∃ a, ("RUB", a) ∈ getAllBalances
      { instruments := [], balances := [((1, "RUB"), ⟨5, 5⟩)],
        orders := [], trades := [] } 1 := by
  refine ⟨rfl, ?_⟩
  rintro ⟨a, ha⟩
  simp [getAllBalances, balFind] at ha

/-- C8 amended: for unique balance keys, the get-all-balances read model
returns exactly the pairs `(ticker, amount - locked_amount)` of the user's
rows with positive available amount; no ticker (RUB included) is reported
otherwise. -/
theorem get_all_balances_characterization :
    ∀ (s : State) (u : Nat) (t : String) (a : Int),
      (s.balances.map (·.1)).Nodup →
      ((t, a) ∈ getAllBalances s u ↔
        ∃ b, findBal s u t = some b ∧ a = b.amount - b.locked ∧ 0 < a) := by
  intro s u t a hn
  constructor
  · intro h
    unfold getAllBalances at h
    obtain ⟨e, he, hfe⟩ := List.mem_filterMap.mp h
    obtain ⟨hel, hp⟩ := List.mem_filter.mp he
    simp only [decide_eq_true_eq] at hp
    dsimp only at hfe
    by_cases hav : 0 < e.2.amount - e.2.locked
    · rw [if_pos hav] at hfe
      have ht : e.1.2 = t := congrArg Prod.fst (Option.some.inj hfe)
      have ha2 : e.2.amount - e.2.locked = a := congrArg Prod.snd (Option.some.inj hfe)
      refine ⟨e.2, ?_, ha2.symm, ha2 ▸ hav⟩
      apply balFind_of_mem_nodup hn
      have : e = ((u, t), e.2) := by
        rw [show ((u, t), e.2) = (e.1, e.2) from by rw [Prod.ext_iff]; exact ⟨(Prod.ext_iff.mpr ⟨hp.symm, ht.symm⟩ : (u, t) = e.1), rfl⟩]
      rw [← this]
      exact hel
    · rw [if_neg hav] at hfe
      cases hfe
  · rintro ⟨b, hb, rfl, hpos⟩
    unfold getAllBalances
    apply List.mem_filterMap.mpr
    refine ⟨((u, t), b), ?_, ?_⟩
    · apply List.mem_filter.mpr
      exact ⟨balFind_mem hb, by simp⟩
    · dsimp only
      rw [if_pos hpos]

/-- C8 amended, witness: a store with the single row `(1, RUB) ↦ (5, 2)` has
unique keys, and `("RUB", 3)` is reported exactly because `5 - 2 = 3 > 0`. -/
theorem get_all_balances_characterization_witness :
    (([((1, "RUB"), (⟨5, 2⟩ : BalanceRec))].map (·.1)).Nodup) ∧
    (("RUB", (3 : Int)) ∈ getAllBalances
        { instruments := [], balances := [((1, "RUB"), ⟨5, 2⟩)],
          orders := [], trades := [] } 1 ↔
      ∃ b, findBal
          { instruments := [], balances := [((1, "RUB"), ⟨5, 2⟩)],
            orders := [], trades := [] } 1 "RUB" = some b ∧
        (3 : Int) = b.amount - b.locked ∧ (0 : Int) < 3) :=
  ⟨by decide,
   get_all_balances_characterization
     { instruments := [], balances := [((1, "RUB"), ⟨5, 2⟩)], orders := [], trades := [] }
     1 "RUB" 3 (by decide)⟩

/-- C9: an admin deposit of a positive amount creates the `(user, ticker)`
row with that amount, or increments the existing row's amount by it leaving
every other row unchanged, and the admin deposit route answers
`{success: true}`. -/
theorem admin_deposit_creates_or_increments :
    ∀ (s : State) (u : Nat) (t : String) (amt : Int), 0 < amt →
      (findBal s u t = none →
        adminDeposit s u t amt = { s with balances := s.balances ++ [((u, t), ⟨amt, 0⟩)] }) ∧
      (∀ b, findBal s u t = some b →
        findBal (adminDeposit s u t amt) u t = some ⟨b.amount + amt, b.locked⟩ ∧
        ∀ u' t', (u', t') ≠ (u, t) → findBal (adminDeposit s u t amt) u' t' = findBal s u' t') ∧
      (adminDepositEndpoint s u t amt).2 = true := by
  intro s u t amt _
  refine ⟨?_, ?_, rfl⟩
  · intro h
    unfold adminDeposit
    rw [h]
    rfl
  · intro b h
    constructor
    · unfold adminDeposit
      rw [h, findBal_setBal_self, h]
      rfl
    · intro u' t' hne
      unfold adminDeposit
      rw [h, findBal_setBal_ne hne]

/-- C9 witness: depositing 7 RUB for user 1 on the one-row store: the
existing row `(1000, 0)` becomes `(1007, 0)` and the route reports success. -/
theorem admin_deposit_creates_or_increments_witness :
    (0 : Int) < 7 ∧
    ((findBal emptyBookState 1 "RUB" = none →
        adminDeposit emptyBookState 1 "RUB" 7 =
          { emptyBookState with balances := emptyBookState.balances ++ [((1, "RUB"), ⟨7, 0⟩)] }) ∧
     (∀ b, findBal emptyBookState 1 "RUB" = some b →
        findBal (adminDeposit emptyBookState 1 "RUB" 7) 1 "RUB" = some ⟨b.amount + 7, b.locked⟩ ∧
        ∀ u' t', (u', t') ≠ (1, "RUB") →
          findBal (adminDeposit emptyBookState 1 "RUB" 7) u' t' = findBal emptyBookState u' t') ∧
     (adminDepositEndpoint emptyBookState 1 "RUB" 7).2 = true) :=
  ⟨by decide, admin_deposit_creates_or_increments emptyBookState 1 "RUB" 7 (by decide)⟩

/-- C10: when no balance row exists for `(user, ticker)`, a reserve call with
a positive delta appends the zero row to the store and returns false. -/
theorem block_funds_missing_row_inserts_then_fails :
    ∀ (s : State) (u : Nat) (t : String) (amt : Int),
      findBal s u t = none → 0 < amt →
      blockFundsAtomic s u t amt =
        ({ s with balances := s.balances ++ [((u, t), ⟨0, 0⟩)] }, false) := by
  intro s u t amt h _
  unfold blockFundsAtomic
  rw [h]
  rfl

/-- C10 witness: reserving 5 AAA for user 2, who has no AAA row, inserts the
zero row and fails. -/
theorem block_funds_missing_row_inserts_then_fails_witness :
    findBal emptyBookState 2 "AAA" = none ∧ (0 : Int) < 5 ∧
    blockFundsAtomic emptyBookState 2 "AAA" 5 =
      ({ emptyBookState with balances := emptyBookState.balances ++ [((2, "AAA"), ⟨0, 0⟩)] },
        false) :=
  ⟨rfl, by decide,
   block_funds_missing_row_inserts_then_fails emptyBookState 2 "AAA" 5 rfl (by decide)⟩

/-- C7: for a valid order request (positive price for a limit order, positive
quantity, existing instrument) whose required reservation exceeds the user's
available balance in the reserved ticker, the reserve step fails, placement
raises the insufficient-balance `ValueError` which the endpoint maps to HTTP
400, the order is never inserted (the placement aborts before the insert, so
nothing is persisted), and the failed reserve leaves every user's available
balances unchanged. -/
theorem insufficient_funds_placement_fails :
    ∀ (s : State) (userId : Nat) (body : OrderBody) (oid ts : Nat),
      WF s →
      (∀ p, body.price = some p → 0 < p) →
      0 < body.qty →
      body.ticker ∈ s.instruments →
      availableOf s userId (reservationTicker body) < reservationAmount s body →
      createOrder s userId body oid ts =
        .error (.valueErr ("Insufficient balance of " ++ reservationTicker body ++
          " to place order.")) ∧
      createOrderHttpStatus (createOrder s userId body oid ts) = 400 ∧
      ∀ (u' : Nat) (t' : String),
        availableOf (blockFundsAtomic s userId (reservationTicker body)
          (reservationAmount s body)).1 u' t' = availableOf s u' t' := by
  intro s userId body oid ts hwf hp hq hins hav
  have hres_pos : 0 < reservationAmount s body :=
    lt_of_le_of_lt (availableOf_nonneg hwf) hav
  have hfail := blockFunds_refuses hwf hav
  have hpr : ¬ (body.price.isSome && decide (body.price.getD 0 ≤ 0)) = true := by
    cases hbp : body.price with
    | none => simp
    | some p =>
      have := hp p hbp
      simp only [Option.isSome_some, Bool.true_and, Option.getD_some, decide_eq_true_eq]
      omega
  have hcreate : createOrder s userId body oid ts =
      .error (.valueErr ("Insufficient balance of " ++ reservationTicker body ++
        " to place order.")) := by
    unfold createOrder
    rw [if_neg hpr, if_neg (by omega : ¬ body.qty ≤ 0), if_neg (by simpa using hins)]
    dsimp only
    rw [if_pos hres_pos, if_pos hfail]
  refine ⟨hcreate, ?_, blockFunds_fail_preserves_available hwf hav⟩
  rw [hcreate]
  rfl

/-- C7 witness: user 1 holds 100 RUB and places BUY 2 AAA @ 60 (needs 120):
placement fails with the 400-mapped insufficient-balance error. -/
theorem insufficient_funds_placement_fails_witness :
    WF c7State ∧
    ((∀ p, c7Body.price = some p → 0 < p) ∧ 0 < c7Body.qty ∧
      c7Body.ticker ∈ c7State.instruments ∧
      availableOf c7State 1 (reservationTicker c7Body) < reservationAmount c7State c7Body) ∧
    createOrder c7State 1 c7Body 7 1 =
      .error (.valueErr ("Insufficient balance of " ++ reservationTicker c7Body ++
        " to place order.")) := by
  refine ⟨⟨by decide, by decide⟩, ⟨?_, by decide, by decide, by decide⟩, ?_⟩
  · intro p hp
    cases hp
    decide
  · exact (insufficient_funds_placement_fails c7State 1 c7Body 7 1
      ⟨by decide, by decide⟩
      (by intro p hp; cases hp; decide)
      (by decide) (by decide) (by decide)).1

/-! ### Helper lemmas: the matching pass introduces no cancellation -/

theorem cancelsFrom_of_orders_eq {s s' : State} (h : s'.orders = s.orders) :
    cancelsFrom s s' := by
  intro o' ho' hc
  rw [h] at ho'
  exact ⟨o', ho', rfl, hc⟩

theorem cancelsFrom_trans {s t r : State} (h1 : cancelsFrom s t) (h2 : cancelsFrom t r) :
    cancelsFrom s r := by
  intro o' ho' hc
  obtain ⟨o1, ho1, hid1, hc1⟩ := h2 o' ho' hc
  obtain ⟨o0, ho0, hid0, hc0⟩ := h1 o1 ho1 hc1
  exact ⟨o0, ho0, hid0.trans hid1, hc0⟩

theorem cancelsFrom_updateOrderFill {s : State} {oid : Nat} {filled : Int}
    {st : OrderStatus} (hst : st ≠ OrderStatus.CANCELLED) :
    cancelsFrom s (updateOrderFill s oid filled st) := by
  intro o' ho' hc
  obtain ⟨a, ha, hae⟩ := List.mem_map.mp ho'
  by_cases hid : a.id = oid
  · rw [if_pos hid] at hae
    rw [← hae] at hc
    exact absurd hc hst
  · rw [if_neg hid] at hae
    rw [← hae] at hc ⊢
    exact ⟨a, ha, rfl, hc⟩

theorem fillStatus_ne_cancelled {c : Prop} [Decidable c] :
    (if c then OrderStatus.EXECUTED else OrderStatus.PARTIALLY_EXECUTED) ≠
      OrderStatus.CANCELLED := by
  split <;> intro hx <;> cases hx

theorem orders_insertTrade {s : State} {t : Trade} : (insertTrade s t).orders = s.orders := rfl

theorem orders_ite {c : Prop} [Decidable c] {a b : State} {x : List Order}
    (ha : a.orders = x) (hb : b.orders = x) : (if c then a else b).orders = x := by
  split <;> assumption

theorem orders_marketBuyTradeRelease {s1 : State} {u : Nat} {cost : Int} :
    (marketBuyTradeRelease s1 u cost).orders = s1.orders := by
  unfold marketBuyTradeRelease
  split
  · split
    · exact orders_unblock
    · rfl
  · rfl

theorem cancelsFrom_fill_chain {s1 X : State} (hX : X.orders = s1.orders) {tr : Trade}
    {i1 i2 : Nat} {f1 f2 : Int} {st1 st2 : OrderStatus}
    (h1 : st1 ≠ OrderStatus.CANCELLED) (h2 : st2 ≠ OrderStatus.CANCELLED) :
    cancelsFrom s1 (updateOrderFill (updateOrderFill (insertTrade X tr) i1 f1 st1) i2 f2 st2) :=
  cancelsFrom_trans
    (cancelsFrom_of_orders_eq (show (insertTrade X tr).orders = s1.orders from hX))
    (cancelsFrom_trans (cancelsFrom_updateOrderFill h1) (cancelsFrom_updateOrderFill h2))

theorem ok_pair_eq {α β ε : Type} {a a' : α} {b b' : β}
    (h : (Except.ok (a, b) : Except ε (α × β)) = .ok (a', b')) : a = a' ∧ b = b' := by
  injection h with h1
  exact ⟨congrArg Prod.fst h1, congrArg Prod.snd h1⟩

theorem matchLoop_cancelsFrom :
    ∀ (fuel : Nat) (imb : Bool) (s : State) (taker : Order) (s' : State) (t' : Order),
      matchLoop imb fuel s taker = .ok (s', t') → cancelsFrom s s' := by
  intro fuel
  induction fuel with
  | zero =>
    intro imb s taker s' t' h
    obtain ⟨h1, h2⟩ := ok_pair_eq h
    exact cancelsFrom_of_orders_eq (by rw [← h1])
  | succ n ih =>
    intro imb s taker s' t' h
    simp only [matchLoop] at h
    split at h
    · obtain ⟨h1, h2⟩ := ok_pair_eq h
      exact cancelsFrom_of_orders_eq (by rw [← h1])
    · split at h
      · obtain ⟨h1, h2⟩ := ok_pair_eq h
        exact cancelsFrom_of_orders_eq (by rw [← h1])
      · rename_i counter hfound
        split at h
        · cases h
        · rename_i tradePrice _
          split at h
          · obtain ⟨h1, h2⟩ := ok_pair_eq h
            exact cancelsFrom_of_orders_eq (by rw [← h1])
          · split at h
            · cases h
            · rename_i s1 heq
              have hchain : cancelsFrom s s1 :=
                cancelsFrom_of_orders_eq (orders_executeTrade heq)
              split at h
              · rw [if_pos (show OrderStatus.EXECUTED = OrderStatus.EXECUTED from rfl)] at h
                obtain ⟨h1, h2⟩ := ok_pair_eq h
                subst h1
                exact cancelsFrom_trans hchain
                  (cancelsFrom_fill_chain (orders_ite orders_marketBuyTradeRelease rfl)
                    (by decide) fillStatus_ne_cancelled)
              · rw [if_neg (show ¬ OrderStatus.PARTIALLY_EXECUTED = OrderStatus.EXECUTED
                  by decide)] at h
                exact cancelsFrom_trans hchain
                  (cancelsFrom_trans
                    (cancelsFrom_fill_chain (orders_ite orders_marketBuyTradeRelease rfl)
                      (by decide) fillStatus_ne_cancelled)
                    (ih _ _ _ _ _ h))

/-! ### Helper lemmas: the taker's row through the matching loop -/

theorem findOrder_id {s : State} {oid : Nat} {o : Order}
    (h : findOrder s oid = some o) : o.id = oid := by
  have := List.find?_some h
  simpa using this

theorem findOrder_orders_eq {s s' : State} {oid : Nat} (h : s'.orders = s.orders) :
    findOrder s' oid = findOrder s oid := by
  unfold findOrder
  rw [h]

theorem ordFind_update_self :
    ∀ (l : List Order) (oid : Nat) (f : Int) (st : OrderStatus) (row : Order),
      l.find? (fun o => decide (o.id = oid)) = some row →
      (l.map (fun o => if o.id = oid then { o with filledQty := f, status := st } else o)).find?
        (fun o => decide (o.id = oid)) = some { row with filledQty := f, status := st } := by
  intro l oid f st row h
  induction l with
  | nil => cases h
  | cons a rest ih =>
    by_cases ha : a.id = oid
    · rw [List.find?_cons_of_pos _ (by simpa using ha)] at h
      have hra : a = row := Option.some.inj h
      subst hra
      simp only [List.map_cons, if_pos ha]
      rw [List.find?_cons_of_pos _ (by simpa using ha)]
    · rw [List.find?_cons_of_neg _ (by simpa using ha)] at h
      simp only [List.map_cons, if_neg ha]
      rw [List.find?_cons_of_neg _ (by simpa using ha)]
      exact ih h

theorem ordFind_update_ne :
    ∀ (l : List Order) (oid cid : Nat) (f : Int) (st : OrderStatus), oid ≠ cid →
      (l.map (fun o => if o.id = cid then { o with filledQty := f, status := st } else o)).find?
        (fun o => decide (o.id = oid)) = l.find? (fun o => decide (o.id = oid)) := by
  intro l oid cid f st hne
  induction l with
  | nil => rfl
  | cons a rest ih =>
    simp only [List.map_cons]
    by_cases hac : a.id = cid
    · have hao : a.id ≠ oid := fun h => hne (h ▸ hac)
      rw [if_pos hac]
      rw [List.find?_cons_of_neg _ (by simpa using hao),
          List.find?_cons_of_neg _ (by simpa using hao)]
      exact ih
    · rw [if_neg hac]
      by_cases hao : a.id = oid
      · rw [List.find?_cons_of_pos _ (by simpa using hao),
            List.find?_cons_of_pos _ (by simpa using hao)]
      · rw [List.find?_cons_of_neg _ (by simpa using hao),
            List.find?_cons_of_neg _ (by simpa using hao)]
        exact ih

theorem findOrder_updateOrderFill_self {s : State} {oid : Nat} {f : Int}
    {st : OrderStatus} {row : Order} (h : findOrder s oid = some row) :
    findOrder (updateOrderFill s oid f st) oid =
      some { row with filledQty := f, status := st } :=
  ordFind_update_self s.orders oid f st row h

theorem findOrder_updateOrderFill_ne {s : State} {oid cid : Nat} {f : Int}
    {st : OrderStatus} (hne : oid ≠ cid) :
    findOrder (updateOrderFill s cid f st) oid = findOrder s oid :=
  ordFind_update_ne s.orders oid cid f st hne

theorem findOrder_after_step {s s1 X : State} {tr : Trade} {tid cid : Nat}
    {nf cf : Int} {ns cs : OrderStatus} {row : Order}
    (hX : X.orders = s1.orders) (h1 : s1.orders = s.orders)
    (hne : tid ≠ cid) (hrow : findOrder s tid = some row) :
    findOrder (updateOrderFill (updateOrderFill (insertTrade X tr) tid nf ns) cid cf cs) tid
      = some { row with filledQty := nf, status := ns } := by
  have hfx : findOrder (insertTrade X tr) tid = some row := by
    rw [findOrder_orders_eq (show (insertTrade X tr).orders = s.orders from hX.trans h1)]
    exact hrow
  rw [findOrder_updateOrderFill_ne hne]
  exact findOrder_updateOrderFill_self hfx

theorem statusMatchesFill_filled {o : Order} {nf : Int} (h0 : 0 < nf) (he : nf = o.qty) :
    statusMatchesFill { o with filledQty := nf, status := OrderStatus.EXECUTED } := by
  unfold statusMatchesFill
  refine ⟨⟨fun _ => he, fun _ => rfl⟩, ?_, ?_, by simp⟩
  · constructor
    · intro hx
      cases hx
    · intro hx
      exact absurd hx (by dsimp only at hx ⊢; omega)
  · constructor
    · intro hx
      cases hx
    · intro hx
      exact absurd hx.2 (by dsimp only at hx ⊢; omega)

theorem statusMatchesFill_partway {o : Order} {nf : Int} (h0 : 0 < nf) (hlt : nf < o.qty) :
    statusMatchesFill { o with filledQty := nf, status := OrderStatus.PARTIALLY_EXECUTED } := by
  unfold statusMatchesFill
  refine ⟨?_, ?_, ⟨fun _ => ⟨h0, hlt⟩, fun _ => rfl⟩, by simp⟩
  · constructor
    · intro hx
      cases hx
    · intro hx
      exact absurd hx (by dsimp only at hx ⊢; omega)
  · constructor
    · intro hx
      cases hx
    · intro hx
      exact absurd hx (by dsimp only at hx ⊢; omega)

theorem trades_marketBuyPostRelease {s : State} {u : Nat} :
    (marketBuyPostRelease s u).trades = s.trades := by
  unfold marketBuyPostRelease
  cases hf : findBal s u "RUB" with
  | none => rfl
  | some b =>
    dsimp only
    by_cases h : 0 < b.locked
    · rw [if_pos h, trades_unblock]
    · rw [if_neg h]

/-- C3 amended: when a market BUY order's matching pass finds no crossable
counter-order (zero fills), the engine releases the user's entire locked RUB
in its post-loop, returns without error, and leaves the order — and every
other order — untouched on the book (the order keeps status NEW); no
`NoLiquidity` error exists in the code and the caller receives success. -/
theorem market_buy_no_fill_releases_and_rests :
    ∀ (s : State) (oid : Nat) (o : Order),
      findOrder s oid = some o →
      o.direction = Direction.BUY →
      o.price = none →
      o.status = OrderStatus.NEW →
      o.filledQty = 0 →
      0 < o.qty →
      findBestMatch s o = none →
      0 ≤ (getBalance s o.userId "RUB").locked →
      ∃ s', processNewOrder s oid = .ok s' ∧
        s'.orders = s.orders ∧
        s'.trades = s.trades ∧
        (getBalance s' o.userId "RUB").locked = 0 := by
  intro s oid o hfind hdir hpr hst hfq hq hmatch hlk
  refine ⟨marketBuyPostRelease s o.userId, ?_, orders_marketBuyPostRelease,
    trades_marketBuyPostRelease, ?_⟩
  · unfold processNewOrder
    rw [hfind]
    dsimp only
    rw [if_neg (by
      intro hcond
      rcases hcond with hna | hle
      · exact hna (Or.inl hst)
      · omega)]
    have himb : (decide (o.direction = Direction.BUY) && decide (o.price = none)) = true := by
      rw [hdir, hpr]
      rfl
    rw [himb]
    have hml : matchLoop true ((o.qty - o.filledQty).toNat + 1) s o = .ok (s, o) := by
      simp only [matchLoop]
      rw [if_neg (by omega : ¬ o.qty - o.filledQty ≤ 0), hmatch]
    rw [hml]
    rfl
  · unfold marketBuyPostRelease
    cases hf : findBal s o.userId "RUB" with
    | none =>
      unfold getBalance
      rw [hf]
      rfl
    | some b =>
      have hlk' : (0 : Int) ≤ b.locked := by
        unfold getBalance at hlk
        rw [hf] at hlk
        exact hlk
      dsimp only
      by_cases hpos : 0 < b.locked
      · rw [if_pos hpos]
        unfold unblockFundsAtomic
        rw [hf, getBalance_setBal_self hf]
        simp
      · rw [if_neg hpos]
        unfold getBalance
        rw [hf]
        dsimp only [Option.getD]
        omega

/-- C3 amended, witness: on the store holding only the resting market BUY
order (id 1, user 1, empty book, 1000 RUB locked), the pass succeeds,
changes no order or trade, and zeroes the user's locked RUB. -/
theorem market_buy_no_fill_releases_and_rests_witness :
    (findOrder c3State 1 = some
      { id := 1, userId := 1, ticker := "AAA", direction := .BUY, qty := 1,
        price := none, status := .NEW, filledQty := 0, timestamp := 1 }) ∧
    (∃ s', processNewOrder c3State 1 = .ok s' ∧
      s'.orders = c3State.orders ∧
      s'.trades = c3State.trades ∧
      (getBalance s' 1 "RUB").locked = 0) :=
  ⟨rfl,
   market_buy_no_fill_releases_and_rests c3State 1
     { id := 1, userId := 1, ticker := "AAA", direction := .BUY, qty := 1,
       price := none, status := .NEW, filledQty := 0, timestamp := 1 }
     rfl rfl rfl rfl rfl (by decide) rfl (by decide)⟩

/-! ### Helper lemmas: the best-match selection -/

theorem candidate_eq (taker o : Order) : codeCandidate taker o = specCandidate taker o := by
  unfold codeCandidate specCandidate baseMatch priceOk oppositeOf
  cases taker.direction <;> cases taker.price <;> cases o.price <;>
    simp [Bool.and_assoc]

theorem betterOrder_irrefl {d : Direction} {a : Order} : betterOrder d a a = false := by
  cases d <;> cases h : a.price <;> simp [betterOrder, h]

theorem betterOrder_trans {d : Direction} {a b c : Order}
    (h1 : betterOrder d a b = true) (h2 : betterOrder d b c = true) :
    betterOrder d a c = true := by
  unfold betterOrder at h1 h2 ⊢
  cases d <;>
    cases ha : a.price <;> cases hb : b.price <;> cases hc : c.price <;>
    simp only [ha, hb, hc] at h1 h2 ⊢ <;>
    simp at h1 h2 ⊢ <;>
    omega

theorem betterOrder_negtrans {d : Direction} {x b r : Order}
    (h1 : betterOrder d x b = false) (h2 : betterOrder d x r = true) :
    betterOrder d b r = true := by
  unfold betterOrder at h1 h2 ⊢
  cases d <;>
    cases hx : x.price <;> cases hb : b.price <;> cases hr : r.price <;>
    simp only [hx, hb, hr] at h1 h2 ⊢ <;>
    simp at h1 h2 ⊢ <;>
    omega

theorem pickGo_mem {d : Direction} :
    ∀ (l : List Order) (b : Order), pickGo d b l = b ∨ pickGo d b l ∈ l := by
  intro l
  induction l with
  | nil => intro b; exact Or.inl rfl
  | cons o rest ih =>
    intro b
    show pickGo d (if betterOrder d o b then o else b) rest = b ∨
      pickGo d (if betterOrder d o b then o else b) rest ∈ o :: rest
    rcases ih (if betterOrder d o b then o else b) with h | h
    · rw [h]
      by_cases hob : betterOrder d o b = true
      · rw [if_pos hob]
        exact Or.inr (List.mem_cons_self ..)
      · rw [if_neg hob]
        exact Or.inl rfl
    · exact Or.inr (List.mem_cons_of_mem _ h)

theorem pickGo_opt {d : Direction} :
    ∀ (l : List Order) (b x : Order), (x = b ∨ x ∈ l) →
      betterOrder d x (pickGo d b l) = false := by
  intro l
  induction l with
  | nil =>
    intro b x hx
    rcases hx with rfl | hx
    · exact betterOrder_irrefl
    · cases hx
  | cons o rest ih =>
    intro b x hx
    show betterOrder d x (pickGo d (if betterOrder d o b then o else b) rest) = false
    rcases hx with hxb | hx
    · -- the accumulator b itself
      by_cases hob : betterOrder d o b = true
      · rw [if_pos hob]
        cases hbr : betterOrder d x (pickGo d o rest) with
        | false => rfl
        | true =>
          rw [hxb] at hbr
          have h1 : betterOrder d o (pickGo d o rest) = true :=
            betterOrder_trans hob hbr
          have h2 : betterOrder d o (pickGo d o rest) = false := ih o o (Or.inl rfl)
          rw [h1] at h2
          cases h2
      · rw [if_neg hob]
        exact ih b x (Or.inl hxb)
    · rcases List.mem_cons.mp hx with hxo | hxr
      · -- x is the head element o
        by_cases hob : betterOrder d o b = true
        · rw [if_pos hob, hxo]
          exact ih o o (Or.inl rfl)
        · rw [if_neg hob, hxo]
          have hob' : betterOrder d o b = false := Bool.eq_false_iff.mpr hob
          cases hbr : betterOrder d o (pickGo d b rest) with
          | false => rfl
          | true =>
            have h1 : betterOrder d b (pickGo d b rest) = true :=
              betterOrder_negtrans hob' hbr
            have h2 : betterOrder d b (pickGo d b rest) = false := ih b b (Or.inl rfl)
            rw [h1] at h2
            cases h2
      · by_cases hob : betterOrder d o b = true
        · rw [if_pos hob]
          exact ih o x (Or.inr hxr)
        · rw [if_neg hob]
          exact ih b x (Or.inr hxr)

theorem pickBest_eq_none_iff {d : Direction} {l : List Order} :
    pickBest d l = none ↔ l = [] := by
  cases l <;> simp [pickBest]

theorem pickBest_mem {d : Direction} {l : List Order} {m : Order}
    (h : pickBest d l = some m) : m ∈ l := by
  cases l with
  | nil => cases h
  | cons a rest =>
    have hm : pickGo d a rest = m := Option.some.inj h
    rcases pickGo_mem rest a with h' | h'
    · rw [hm] at h'
      rw [← h']
      exact List.mem_cons_self ..
    · rw [hm] at h'
      exact List.mem_cons_of_mem _ h'

theorem pickBest_opt {d : Direction} {l : List Order} {m : Order}
    (h : pickBest d l = some m) : ∀ x ∈ l, betterOrder d x m = false := by
  intro x hx
  cases l with
  | nil => cases hx
  | cons a rest =>
    have hm : pickGo d a rest = m := Option.some.inj h
    rw [← hm]
    rcases List.mem_cons.mp hx with hxa | hx'
    · exact pickGo_opt rest a x (Or.inl hxa)
    · exact pickGo_opt rest a x (Or.inr hx')

theorem betterOrder_eq_specPrefer {d : Direction} {a b : Order} {pa pb : Int}
    (ha : a.price = some pa) (hb : b.price = some pb) :
    betterOrder d a b = specPrefer d a b := by
  cases d <;> simp [betterOrder, specPrefer, ha, hb]

/-- C6: for a taker with positive residual, and a book whose candidate rows
all carry prices (resting limit orders), `_find_best_match` returns none
exactly when no row satisfies the claim's candidate predicate (same ticker,
active status, positive residual, different order id — same user allowed —
opposite direction, crossable price for a limit taker); and when it returns a
row, that row is a candidate from the book and no other candidate is
strictly preferred under the claim's price-time order (best price first,
earliest timestamp on ties). -/
theorem best_match_query_spec :
    ∀ (s : State) (taker : Order),
      0 < taker.qty - taker.filledQty →
      (∀ o ∈ s.orders, specCandidate taker o = true → o.price.isSome) →
      ((findBestMatch s taker = none ↔ ∀ o ∈ s.orders, specCandidate taker o = false) ∧
       (∀ m, findBestMatch s taker = some m →
          m ∈ s.orders ∧ specCandidate taker m = true ∧
          ∀ o ∈ s.orders, specCandidate taker o = true →
            specPrefer taker.direction o m = false)) := by
  intro s taker hres hprices
  unfold findBestMatch
  rw [if_neg (by omega)]
  have hfilt : s.orders.filter (codeCandidate taker) = s.orders.filter (specCandidate taker) := by
    apply List.filter_congr
    intro o _
    rw [candidate_eq]
  rw [hfilt]
  constructor
  · rw [pickBest_eq_none_iff, List.filter_eq_nil_iff]
    constructor
    · intro h o ho
      have := h o ho
      cases hc : specCandidate taker o
      · rfl
      · exact absurd hc this
    · intro h o ho
      rw [h o ho]
      exact Bool.false_ne_true
  · intro m hm
    have hmem := List.mem_filter.mp (pickBest_mem hm)
    refine ⟨hmem.1, hmem.2, ?_⟩
    intro o ho hco
    have hof : o ∈ s.orders.filter (specCandidate taker) :=
      List.mem_filter.mpr ⟨ho, hco⟩
    have hbo := pickBest_opt hm o hof
    obtain ⟨po, hpo⟩ := Option.isSome_iff_exists.mp (hprices o ho hco)
    obtain ⟨pm, hpm⟩ := Option.isSome_iff_exists.mp (hprices m hmem.1 hmem.2)
    rw [← betterOrder_eq_specPrefer hpo hpm]
    exact hbo

/-- C6 witness: the BUY-100 taker against the two-ask book: both candidates
carry prices, and the query's characterization holds — in particular the
returned best match is the price-90 ask (id 3). -/
theorem best_match_query_spec_witness :
    (0 < c6Taker.qty - c6Taker.filledQty) ∧
    (∀ o ∈ c6State.orders, specCandidate c6Taker o = true → o.price.isSome) ∧
    ((findBestMatch c6State c6Taker = none ↔
        ∀ o ∈ c6State.orders, specCandidate c6Taker o = false) ∧
     (∀ m, findBestMatch c6State c6Taker = some m →
        m ∈ c6State.orders ∧ specCandidate c6Taker m = true ∧
        ∀ o ∈ c6State.orders, specCandidate c6Taker o = true →
          specPrefer c6Taker.direction o m = false)) ∧
    (findBestMatch c6State c6Taker).map (·.id) = some 3 :=
  ⟨by decide, by decide,
   best_match_query_spec c6State c6Taker (by decide) (by decide), by decide⟩

theorem findBestMatch_id_ne {s : State} {taker counter : Order}
    (h : findBestMatch s taker = some counter) : counter.id ≠ taker.id := by
  unfold findBestMatch at h
  split at h
  · cases h
  · have hm := pickBest_mem h
    have hc := (List.mem_filter.mp hm).2
    unfold codeCandidate baseMatch at hc
    simp only [Bool.and_eq_true, decide_eq_true_eq] at hc
    exact hc.1.1.2

theorem matchLoop_taker_row :
    ∀ (fuel : Nat) (imb : Bool) (s : State) (taker : Order) (s' : State) (t' : Order),
      matchLoop imb fuel s taker = .ok (s', t') →
      ∀ row : Order, findOrder s taker.id = some row →
        row.filledQty = taker.filledQty → row.status = taker.status →
        row.qty = taker.qty →
        0 ≤ taker.filledQty → taker.filledQty ≤ taker.qty →
        statusMatchesFill taker →
        t'.id = taker.id ∧ t'.qty = taker.qty ∧
        0 ≤ t'.filledQty ∧ t'.filledQty ≤ t'.qty ∧
        statusMatchesFill t' ∧
        ∃ row', findOrder s' t'.id = some row' ∧ row'.filledQty = t'.filledQty ∧
          row'.status = t'.status ∧ row'.qty = t'.qty := by
  intro fuel
  induction fuel with
  | zero =>
    intro imb s taker s' t' h row hrow hrf hrs hrq h0 hle hsmf
    obtain ⟨h1, h2⟩ := ok_pair_eq h
    subst h1
    subst h2
    exact ⟨rfl, rfl, h0, hle, hsmf, row, hrow, hrf, hrs, hrq⟩
  | succ n ih =>
    intro imb s taker s' t' h row hrow hrf hrs hrq h0 hle hsmf
    simp only [matchLoop] at h
    split at h
    · obtain ⟨h1, h2⟩ := ok_pair_eq h
      subst h1
      subst h2
      exact ⟨rfl, rfl, h0, hle, hsmf, row, hrow, hrf, hrs, hrq⟩
    · split at h
      · obtain ⟨h1, h2⟩ := ok_pair_eq h
        subst h1
        subst h2
        exact ⟨rfl, rfl, h0, hle, hsmf, row, hrow, hrf, hrs, hrq⟩
      · rename_i counter hfound
        split at h
        · cases h
        · rename_i tradePrice hcp
          split at h
          · obtain ⟨h1, h2⟩ := ok_pair_eq h
            subst h1
            subst h2
            exact ⟨rfl, rfl, h0, hle, hsmf, row, hrow, hrf, hrs, hrq⟩
          · rename_i htqpos
            split at h
            · cases h
            · rename_i s1 heq
              have hcne : counter.id ≠ taker.id := findBestMatch_id_ne hfound
              have htq : 0 < (taker.qty - taker.filledQty) ⊓ (counter.qty - counter.filledQty) := by
                omega
              have htq2 : (taker.qty - taker.filledQty) ⊓ (counter.qty - counter.filledQty) ≤
                  taker.qty - taker.filledQty := inf_le_left
              split at h
              · -- the taker is fully filled: the loop exits with status EXECUTED
                rename_i hexec
                rw [if_pos (show OrderStatus.EXECUTED = OrderStatus.EXECUTED from rfl)] at h
                obtain ⟨h1, h2⟩ := ok_pair_eq h
                subst h1
                subst h2
                refine ⟨rfl, rfl, by dsimp only; omega, by dsimp only; omega,
                  statusMatchesFill_filled (by omega) hexec, ?_⟩
                exact ⟨{ row with
                    filledQty := taker.filledQty +
                      (taker.qty - taker.filledQty) ⊓ (counter.qty - counter.filledQty),
                    status := OrderStatus.EXECUTED },
                  findOrder_after_step (orders_ite orders_marketBuyTradeRelease rfl)
                    (orders_executeTrade heq) (Ne.symm hcne) hrow,
                  rfl, rfl, hrq⟩
              · -- partial fill: the loop recurses on the updated taker
                rename_i hnexec
                rw [if_neg (show ¬ OrderStatus.PARTIALLY_EXECUTED = OrderStatus.EXECUTED
                  by decide)] at h
                have hcon := ih _ _ _ _ _ h
                  { row with
                    filledQty := taker.filledQty +
                      (taker.qty - taker.filledQty) ⊓ (counter.qty - counter.filledQty),
                    status := OrderStatus.PARTIALLY_EXECUTED }
                  (findOrder_after_step (orders_ite orders_marketBuyTradeRelease rfl)
                    (orders_executeTrade heq) (Ne.symm hcne) hrow)
                  rfl rfl hrq (by dsimp only; omega) (by dsimp only; omega)
                  (statusMatchesFill_partway (by omega) (by omega))
                exact hcon

/-- C2 amended: after the single matching pass that processes a freshly
placed market order (status NEW, zero fills, positive quantity), the order's
committed row is EXECUTED exactly when its fill count reached the full
quantity; otherwise it is left resting on the book in its non-terminal
status — NEW exactly with zero fills, PARTIALLY_EXECUTED exactly with a
proper partial fill — and it is never CANCELLED; more generally, the pass
transitions no order of the store to CANCELLED. -/
theorem matching_pass_status_reflects_fills :
    ∀ (s : State) (oid : Nat) (o : Order) (s' : State),
      findOrder s oid = some o →
      o.price = none →
      o.status = OrderStatus.NEW →
      o.filledQty = 0 →
      0 < o.qty →
      processNewOrder s oid = .ok s' →
      (∃ o', findOrder s' oid = some o' ∧ o'.qty = o.qty ∧
        (o'.status = OrderStatus.EXECUTED ↔ o'.filledQty = o.qty) ∧
        (o'.status = OrderStatus.NEW ↔ o'.filledQty = 0) ∧
        (o'.status = OrderStatus.PARTIALLY_EXECUTED ↔
          (0 < o'.filledQty ∧ o'.filledQty < o.qty)) ∧
        o'.status ≠ OrderStatus.CANCELLED) ∧
      (∀ o'' ∈ s'.orders, o''.status = OrderStatus.CANCELLED →
        ∃ o0 ∈ s.orders, o0.id = o''.id ∧ o0.status = OrderStatus.CANCELLED) := by
  intro s oid o s' hfind hpr hst hfq hq h
  have hoid : o.id = oid := findOrder_id hfind
  unfold processNewOrder at h
  rw [hfind] at h
  dsimp only at h
  rw [if_neg (by
    intro hc
    rcases hc with hna | hle
    · exact hna (Or.inl hst)
    · omega)] at h
  split at h
  · cases h
  · rename_i s1 taker hml
    cases h
    have hsmf0 : statusMatchesFill o := by
      unfold statusMatchesFill
      rw [hst, hfq]
      refine ⟨⟨fun hx => absurd hx (by decide), fun hx => absurd hx (by omega)⟩,
        ⟨fun _ => rfl, fun _ => rfl⟩,
        ⟨fun hx => absurd hx (by decide), fun hx => absurd hx.1 (by omega)⟩,
        by decide⟩
    have hcon := matchLoop_taker_row _ _ _ _ _ _ hml o
      (by rw [hoid]; exact hfind) rfl rfl rfl (by omega) (by omega) hsmf0
    obtain ⟨hid, hqty, h0', hle', hsmf', row', hrow', hrf', hrs', hrq'⟩ := hcon
    obtain ⟨hexec', hnew', hpart', hcanc'⟩ := hsmf'
    refine ⟨⟨row', ?_, ?_, ?_, ?_, ?_, ?_⟩, ?_⟩
    · rw [findOrder_orders_eq (orders_ite orders_marketBuyPostRelease rfl),
        ← hid.trans hoid]
      exact hrow'
    · exact hrq'.trans hqty
    · rw [hrs', hrf', ← hqty]
      exact hexec'
    · rw [hrs', hrf']
      exact hnew'
    · rw [hrs', hrf', ← hqty]
      exact hpart'
    · rw [hrs']
      exact hcanc'
    · have hc : cancelsFrom s s1 := matchLoop_cancelsFrom _ _ _ _ _ _ hml
      exact cancelsFrom_trans hc
        (cancelsFrom_of_orders_eq (orders_ite orders_marketBuyPostRelease rfl))

/-- C2 amended, witness: the resting market BUY (id 1, qty 1, no fills) of
`c3State` against the empty book: the pass returns `c2After`, where the
order's row is NEW with zero fills (hence neither EXECUTED nor CANCELLED),
and no order of the store became CANCELLED. -/
theorem matching_pass_status_reflects_fills_witness :
    (findOrder c3State 1 = some c3Order ∧ c3Order.price = none ∧
      c3Order.status = OrderStatus.NEW ∧ c3Order.filledQty = 0 ∧ 0 < c3Order.qty ∧
      processNewOrder c3State 1 = .ok c2After) ∧
    ((∃ o', findOrder c2After 1 = some o' ∧ o'.qty = c3Order.qty ∧
        (o'.status = OrderStatus.EXECUTED ↔ o'.filledQty = c3Order.qty) ∧
        (o'.status = OrderStatus.NEW ↔ o'.filledQty = 0) ∧
        (o'.status = OrderStatus.PARTIALLY_EXECUTED ↔
          (0 < o'.filledQty ∧ o'.filledQty < c3Order.qty)) ∧
        o'.status ≠ OrderStatus.CANCELLED) ∧
      (∀ o'' ∈ c2After.orders, o''.status = OrderStatus.CANCELLED →
        ∃ o0 ∈ c3State.orders, o0.id = o''.id ∧ o0.status = OrderStatus.CANCELLED)) :=
  ⟨⟨rfl, rfl, rfl, rfl, by decide, rfl⟩,
   matching_pass_status_reflects_fills c3State 1 c3Order c2After rfl rfl rfl rfl
     (by decide) rfl⟩

end StockMarket
